import Mathlib

/-!
Shallow embedding of the hancon HWP-to-ODT converter (Rust) in Lean 4,
with theorems checking the natural-language specification against the code.

Conventions of the embedding:
- Rust byte slices become `Bytes := List Nat` (each element a byte value).
- Machine integers become `Nat` with explicit `% 2 ^ w` at the points where
  the Rust code performs a cast or relies on wrap-around.
- Fallible Rust functions (`HwpResult`) become `Except HwpError`.
- Loops whose termination is not structurally evident in the source
  (the OLE2 directory traversal, the record-stream loop, the BodyText
  section loop) are embedded with an explicit fuel argument; running out
  of fuel yields the marker value `Except.ok none`, so nontermination of
  the Rust loop corresponds to returning the marker for every fuel.
-/

set_option maxRecDepth 10000
set_option linter.unreachableTactic false
set_option linter.unusedTactic false
set_option linter.unnecessarySeqFocus false

namespace Hancon

/-! ## Byte primitives (src/common/mod.rs) -/

abbrev Bytes := List Nat

/-- Embedding of read_u8: present iff the offset is in range. -/
def readU8 (data : Bytes) (off : Nat) : Option Nat :=
  if off < data.length then some (data.getD off 0) else none

/-- Embedding of read_u16_le. -/
def readU16le (data : Bytes) (off : Nat) : Option Nat :=
  if off + 2 ≤ data.length then
    some (data.getD off 0 + 256 * data.getD (off + 1) 0)
  else none

/-- Embedding of read_u32_le. -/
def readU32le (data : Bytes) (off : Nat) : Option Nat :=
  if off + 4 ≤ data.length then
    some (data.getD off 0 + 256 * data.getD (off + 1) 0 +
          65536 * data.getD (off + 2) 0 + 16777216 * data.getD (off + 3) 0)
  else none

/-- Embedding of check_signature: slice equality at an offset, false when short. -/
def checkSignature (data : Bytes) (off : Nat) (sig : Bytes) : Bool :=
  if off + sig.length ≤ data.length then
    ((data.drop off).take sig.length) == sig
  else false

/-! ## Error taxonomy (src/common/error.rs) -/

inductive HwpError where
  | invalidFormat (msg : String)
  | invalidSignature
  | unsupportedVersion (msg : String)
  | parseError (msg : String)
  | ioError (msg : String)
  | zipError (msg : String)
  | invalidData (msg : String)
  | notFound (msg : String)
deriving DecidableEq

abbrev HwpResult (α : Type) := Except HwpError α

deriving instance DecidableEq for Except

/-- Discriminator: result is a ParseError. -/
def isParseErr {α : Type} : HwpResult α → Bool
  | .error (.parseError _) => true
  | _ => false

/-- Discriminator: result is a NotFound error. -/
def isNotFoundErr {α : Type} : HwpResult α → Bool
  | .error (.notFound _) => true
  | _ => false

/-- Discriminator: result is an InvalidFormat error. -/
def isInvalidFormatErr {α : Type} : HwpResult α → Bool
  | .error (.invalidFormat _) => true
  | _ => false

/-- Discriminator: result is Ok carrying a value (fuel did not run out). -/
def isOkSome {α : Type} : HwpResult (Option α) → Bool
  | .ok (some _) => true
  | _ => false

/-! ## Record layer (src/parser/record.rs) -/

structure RecordHeader where
  tagid : Nat
  level : Nat
  size : Nat
deriving DecidableEq

/-- Embedding of RecordHeader::parse: 4-byte bit-packed header, tagid bits
0-9, level bits 10-19, size bits 20-31; size field 4095 switches to a
4-byte little-endian extended size and a header length of 8 bytes. -/
def RecordHeader.parse (data : Bytes) : HwpResult (RecordHeader × Nat) :=
  if data.length < 4 then
    .error (.parseError "Record header must be at least 4 bytes")
  else
    match readU32le data 0 with
    | none => .error (.parseError "Cannot read record header")
    | some w =>
      let tagid := w % 1024
      let level := w / 1024 % 1024
      let sizeBits := w / 1048576 % 4096
      if sizeBits == 4095 then
        if data.length < 8 then
          .error (.parseError "Extended record size requires 8 bytes")
        else
          match readU32le data 4 with
          | none => .error (.parseError "Cannot read extended size")
          | some ext => .ok (⟨tagid, level, ext⟩, 8)
      else .ok (⟨tagid, level, sizeBits⟩, 4)

/-- Embedding of format_tagname (src/parser/record.rs). -/
def formatTagname (tagid : Nat) : String :=
  match tagid with
  | 0 => "HWP_ID"
  | 3 => "HWPTAG_PARA_TEXT"
  | 4 => "HWPTAG_PARA_CHAR_SHAPE"
  | 5 => "HWPTAG_PARA_LINE_SEG"
  | 6 => "HWPTAG_PARA_RANGE_TAG"
  | 7 => "HWPTAG_CTRL_HEADER"
  | 9 => "HWPTAG_LIST_HEADER"
  | 10 => "HWPTAG_TABLE_CELL"
  | 11 => "HWPTAG_SECTION_DEF"
  | 16 => "HWPTAG_DOC_INFO"
  | 17 => "HWPTAG_ID_MAPPINGS"
  | 18 => "HWPTAG_BIN_DATA"
  | 19 => "HWPTAG_FACE_NAME"
  | 20 => "HWPTAG_BORDER_FILL"
  | 21 => "HWPTAG_CHAR_SHAPE"
  | 22 => "HWPTAG_TAB_DEF"
  | 23 => "HWPTAG_NUMBERING"
  | 24 => "HWPTAG_BULLET"
  | 25 => "HWPTAG_PARA_SHAPE"
  | 26 => "HWPTAG_STYLE"
  | 27 => "HWPTAG_DOC_DATA"
  | 28 => "HWPTAG_DISTRIBUTE_DOC_DATA"
  | 29 => "HWPTAG_RESERVED"
  | 30 => "HWPTAG_COMPATIBLE_DOC_DATA"
  | 31 => "HWPTAG_LAYOUT_COMPATIBILITY"
  | 50 => "HWPTAG_PARAGRAPH"
  | 51 => "HWPTAG_PARA_TEXT"
  | 52 => "HWPTAG_PARA_CHAR_SHAPE"
  | 53 => "HWPTAG_PARA_LINE_SEG"
  | 54 => "HWPTAG_PARA_RANGE_TAG"
  | 61 => "HWPTAG_TABLE"
  | 62 => "HWPTAG_SHAPE_COMPONENT_RECT"
  | 63 => "HWPTAG_SHAPE_COMPONENT_ELLIPSE"
  | 64 => "HWPTAG_SHAPE_COMPONENT_ARC"
  | 65 => "HWPTAG_SHAPE_COMPONENT_POLYGON"
  | 66 => "HWPTAG_SHAPE_COMPONENT_CURVE"
  | 67 => "HWPTAG_SHAPE_COMPONENT_OLE"
  | 68 => "HWPTAG_SHAPE_COMPONENT_PICTURE"
  | 69 => "HWPTAG_SHAPE_COMPONENT_CONTAINER"
  | 70 => "HWPTAG_CTRL_DATA"
  | 71 => "HWPTAG_EQEDIT"
  | 72 => "HWPTAG_SHAPE_COMPONENT_TEXTBOX"
  | t => "HWPTAG_" ++ toString t

structure Record where
  tagid : Nat
  tagname : String
  level : Nat
  size : Nat
  payload : Bytes
deriving DecidableEq

/-- Embedding of RecordStream::next_record on the pure state (data, pos).
Returns Ok none at end, Ok (some (record, newPos)) on success. -/
def nextRecord (data : Bytes) (pos : Nat) : HwpResult (Option (Record × Nat)) :=
  if pos ≥ data.length then .ok none
  else
    match RecordHeader.parse (data.drop pos) with
    | .error e => .error e
    | .ok (h, headerSize) =>
      if pos + headerSize + h.size > data.length then
        .error (.parseError ("Record payload out of bounds: pos=" ++ toString pos ++
          ", header_size=" ++ toString headerSize ++ ", size=" ++ toString h.size))
      else
        let payload := (data.drop (pos + headerSize)).take h.size
        .ok (some (⟨h.tagid, formatTagname h.tagid, h.level, h.size, payload⟩,
                   pos + headerSize + h.size))

/-- Fueled iteration of next_record collecting all records; Ok none marks
fuel exhaustion (the Rust loop advances pos by at least 4 per step, so fuel
data.length + 1 always suffices; this is proved below). -/
def readRecordsGo (data : Bytes) : Nat → Nat → HwpResult (Option (List Record))
  | 0, _ => .ok none
  | fuel + 1, pos =>
    match nextRecord data pos with
    | .error e => .error e
    | .ok none => .ok (some [])
    | .ok (some (r, p2)) =>
      match readRecordsGo data fuel p2 with
      | .error e => .error e
      | .ok none => .ok none
      | .ok (some rs) => .ok (some (r :: rs))

/-- Drain a record stream from position 0 (as parse_docinfo and
parse_bodytext do via while-let on next_record). -/
def readRecords (data : Bytes) : HwpResult (Option (List Record)) :=
  readRecordsGo data (data.length + 1) 0

/-! ### Well-formed record encodings (for the totality statements) -/

/-- Little-endian byte encoding of a 32-bit value. -/
def u32le (v : Nat) : Bytes :=
  [v % 256, v / 256 % 256, v / 65536 % 256, v / 16777216 % 256]

/-- Little-endian byte encoding of a 16-bit value. -/
def u16le (v : Nat) : Bytes :=
  [v % 256, v / 256 % 256]

/-- A record specification: tag, level and payload to be encoded. -/
structure RecSpec where
  tag : Nat
  level : Nat
  payload : Bytes
deriving DecidableEq

/-- A record specification that fits the header encoding. -/
def RecSpec.WF (r : RecSpec) : Prop :=
  r.tag < 1024 ∧ r.level < 1024 ∧ r.payload.length < 4294967296

instance (r : RecSpec) : Decidable r.WF := by
  unfold RecSpec.WF; infer_instance

/-- The byte encoding of a well-formed record: 4-byte packed header, with
the 12-bit size field escaping to a 4-byte extended size at 4095. -/
def encodeRecord (r : RecSpec) : Bytes :=
  if r.payload.length < 4095 then
    u32le (r.tag + 1024 * r.level + 1048576 * r.payload.length) ++ r.payload
  else
    u32le (r.tag + 1024 * r.level + 1048576 * 4095) ++
      u32le r.payload.length ++ r.payload

/-- Byte buffer formed by concatenating encoded records back-to-back. -/
def encodeRecords (rs : List RecSpec) : Bytes :=
  (rs.map encodeRecord).flatten

/-- The Record value the iterator is expected to yield for a specification. -/
def RecSpec.toRecord (r : RecSpec) : Record :=
  ⟨r.tag, formatTagname r.tag, r.level, r.payload.length, r.payload⟩

/-- The header would extend past the buffer: fewer than 4 bytes remain, or
the 12-bit size field is 4095 and fewer than 8 bytes remain. -/
def headerPastEnd (data : Bytes) (pos : Nat) : Prop :=
  data.length - pos < 4 ∨
  (∃ w, readU32le (data.drop pos) 0 = some w ∧
    w / 1048576 % 4096 = 4095 ∧ data.length - pos < 8)

/-- The declared payload would extend past the buffer end. -/
def payloadPastEnd (data : Bytes) (pos : Nat) : Prop :=
  ∃ h hs, RecordHeader.parse (data.drop pos) = .ok (h, hs) ∧
    pos + hs + h.size > data.length

/-! ## Format dispatcher (src/format/mod.rs, detect_format) -/

inductive FileFormat where
  | hwp
  | hwpx
deriving DecidableEq

/-- The OLE2 signature D0 CF 11 E0 A1 B1 1A E1. -/
def ole2Sig : Bytes := [0xD0, 0xCF, 0x11, 0xE0, 0xA1, 0xB1, 0x1A, 0xE1]

/-- The ZIP local-header signature 50 4B 03 04. -/
def pkSig : Bytes := [0x50, 0x4B, 0x03, 0x04]

/-- Embedding of detect_format. -/
def detectFormat (data : Bytes) : HwpResult FileFormat :=
  if data.length < 4 then .error (.invalidFormat "File too small")
  else if checkSignature data 0 ole2Sig then .ok .hwp
  else if checkSignature data 0 pkSig then .ok .hwpx
  else .error (.invalidFormat "Unknown file format")

/-! ## UTF-16 decoding helpers (String::from_utf16_lossy and the manual
byte-pair collection loops in ole2.rs and format/mod.rs) -/

/-- Lossy UTF-16 decoding: surrogate pairs combine, lone surrogates become
U+FFFD, everything else maps through. -/
def utf16Lossy : List Nat → List Char
  | [] => []
  | [u] => [if u < 0xD800 || 0xE000 ≤ u then Char.ofNat u else Char.ofNat 0xFFFD]
  | u :: v :: rest =>
    if u < 0xD800 || 0xE000 ≤ u then Char.ofNat u :: utf16Lossy (v :: rest)
    else if u < 0xDC00 && (0xDC00 ≤ v && v < 0xE000) then
      Char.ofNat (0x10000 + (u - 0xD800) * 1024 + (v - 0xDC00)) :: utf16Lossy rest
    else Char.ofNat 0xFFFD :: utf16Lossy (v :: rest)

/-- Structural core of the byte-pair collection loops: read little-endian
u16 code units off the front of the byte list while the remaining byte
budget n is positive, consuming two bytes (and a budget of two) per unit;
a missing byte fails the whole collection. -/
def collectPairsFrom : Bytes → Nat → Option (List Nat)
  | _, 0 => some []
  | b0 :: b1 :: rest, n + 1 =>
    match collectPairsFrom rest (n - 1) with
    | some units => some ((b0 + 256 * b1) :: units)
    | none => none
  | _, _ + 1 => none

/-- Collect little-endian u16 code units from bytes at indices
i, i+2, i+4, ... while i < stop; none when a needed byte is missing
(mirrors the step_by(2) collect::<Result<...>> loops: position i reads
(bs.drop i) and the loop guard i < stop leaves a budget of stop - i). -/
def collectPairs (bs : Bytes) (stop : Nat) (i : Nat) : Option (List Nat) :=
  collectPairsFrom (bs.drop i) (stop - i)

/-- Drop all trailing NUL characters (str::trim_end_matches with a NUL). -/
def trimEndNul (cs : List Char) : List Char :=
  (cs.reverse.dropWhile (fun c => c == Char.ofNat 0)).reverse

/-! ## Document model (src/model/mod.rs, src/common/types.rs) -/

abbrev HwpUnit := Int

inductive Alignment where
  | left
  | right
  | center
  | justify
  | distribute
deriving DecidableEq

inductive LineStyle where
  | none
  | solid
  | dotted
  | dashed
  | dashDot
  | dashDotDot
  | double
  | wave
deriving DecidableEq

inductive StyleType where
  | paragraph
  | character
  | table
  | list
deriving DecidableEq

inductive FillType where
  | none
  | solid
  | pattern
  | gradient
  | image
deriving DecidableEq

inductive TabAlign where
  | left
  | right
  | center
  | decimal
deriving DecidableEq

inductive TabLeader where
  | none
  | dot
  | line
  | heavy
  | space
deriving DecidableEq

/-- Packed 24-bit colour, 0xBBGGRR. -/
abbrev Color := Nat

structure Border where
  style : LineStyle
  width : Nat
  color : Color
deriving DecidableEq

def Border.noneB : Border := ⟨LineStyle.none, 0, 0⟩

structure TabStop where
  position : HwpUnit
  align : TabAlign
  leader : TabLeader
deriving DecidableEq

structure CharShape where
  id : Nat
  fontId : Nat
  fontSize : HwpUnit
  bold : Bool
  italic : Bool
  underline : LineStyle
  strikethrough : Bool
  color : Color
  backgroundColor : Color
deriving DecidableEq

/-- CharShape::new(id): 10pt black defaults. -/
def CharShape.new (id : Nat) : CharShape :=
  ⟨id, 0, 200, false, false, LineStyle.none, false, 0, 0xFFFFFF⟩

structure ParaShape where
  id : Nat
  alignment : Alignment
  indentLeft : HwpUnit
  indentRight : HwpUnit
  indentFirst : HwpUnit
  spacingBefore : HwpUnit
  spacingAfter : HwpUnit
  lineSpacing : Nat
  tabs : List TabStop
deriving DecidableEq

/-- ParaShape::new(id). -/
def ParaShape.new (id : Nat) : ParaShape :=
  ⟨id, Alignment.left, 0, 0, 0, 0, 0, 100, []⟩

structure Style where
  id : Nat
  name : String
  styleType : StyleType
  parentId : Nat
  charShapeId : Nat
  paraShapeId : Nat
deriving DecidableEq

structure BorderFill where
  id : Nat
  left : Border
  right : Border
  top : Border
  bottom : Border
  diagonal : Border
  fillType : FillType
  fillColor : Color
  backgroundColor : Color
deriving DecidableEq

structure RectT where
  x0 : HwpUnit
  y0 : HwpUnit
  x1 : HwpUnit
  y1 : HwpUnit
deriving DecidableEq

structure MarginT where
  left : HwpUnit
  top : HwpUnit
  right : HwpUnit
  bottom : HwpUnit
deriving DecidableEq

structure TextRun where
  text : String
  charShapeId : Nat
deriving DecidableEq

inductive Field where
  | date
  | time
  | pageNumber
  | pageCount
  | footnoteNumber
  | hyperlink (target : String)
deriving DecidableEq

inductive ShapeType where
  | rectangle
  | ellipse
  | arc
  | polygon
  | curve
  | container
deriving DecidableEq

structure Shape where
  id : Nat
  shapeType : ShapeType
  rect : RectT
deriving DecidableEq

structure Picture where
  id : Nat
  bindataId : Nat
  filename : String
  rect : RectT
  margin : MarginT
deriving DecidableEq

structure OLEObj where
  id : Nat
  bindataId : Nat
deriving DecidableEq

structure EquationObj where
  id : Nat
  bindataId : Nat
deriving DecidableEq

mutual

inductive Block where
  | paragraph (p : Paragraph) : Block
  | table (t : Table) : Block
  | shape (s : Shape) : Block

inductive Paragraph where
  | mk (id styleId paraShapeId charShapeId : Nat) (level : Nat)
       (inlines : List Inline) : Paragraph

inductive Inline where
  | text (t : TextRun) : Inline
  | control (c : Control) : Inline
  | field (f : Field) : Inline

inductive Control where
  | table (t : Table) : Control
  | picture (p : Picture) : Control
  | ole (o : OLEObj) : Control
  | textBox (tb : TextBox) : Control
  | equation (e : EquationObj) : Control

inductive Table where
  | mk (id rows cols : Nat) (cells : List TableCell) (borderFillId : Nat) : Table

inductive TableCell where
  | mk (row col rowSpan colSpan : Nat) (content : List Block) : TableCell

inductive TextBox where
  | mk (id : Nat) (rect : RectT) (margin : MarginT) (content : List Block) : TextBox

end

def Paragraph.styleId : Paragraph → Nat
  | .mk _ s _ _ _ _ => s

def Paragraph.inlines : Paragraph → List Inline
  | .mk _ _ _ _ _ l => l

def Table.id : Table → Nat
  | .mk i _ _ _ _ => i

def Table.rows : Table → Nat
  | .mk _ r _ _ _ => r

def Table.cells : Table → List TableCell
  | .mk _ _ _ c _ => c

def TableCell.row : TableCell → Nat
  | .mk r _ _ _ _ => r

def TableCell.content : TableCell → List Block
  | .mk _ _ _ _ c => c

structure Section where
  blocks : List Block
  pageWidth : HwpUnit
  pageHeight : HwpUnit
  marginTop : HwpUnit
  marginBottom : HwpUnit
  marginLeft : HwpUnit
  marginRight : HwpUnit

/-- Section::new(): A4 defaults. -/
def Section.new : Section :=
  ⟨[], 5644, 7990, 1440, 1440, 1440, 1440⟩

structure Document where
  sections : List Section
  fonts : List String
  styles : List Style
  charShapes : List CharShape
  paraShapes : List ParaShape
  borderFills : List BorderFill

/-- Document::new(): all tables empty. -/
def Document.new : Document :=
  ⟨[], [], [], [], [], []⟩

/-! ## DocInfo decoding (src/format/mod.rs) -/

/-- Embedding of parse_face_name: UTF-16LE decode of the payload, lossy,
with trailing NULs trimmed; empty payload or a missing byte in the
pair-collection loop yields the empty string. Never fails. -/
def parseFaceName (payload : Bytes) : HwpResult String :=
  if payload.length == 0 then .ok ""
  else
    match collectPairs payload payload.length 0 with
    | some units => .ok (String.mk (trimEndNul (utf16Lossy units)))
    | none => .ok ""

/-- Embedding of parse_char_shape: the payload is inspected only for its
length; the result is always the default shape carrying the given id. -/
def parseCharShape (_payload : Bytes) (id : Nat) : HwpResult CharShape :=
  .ok (CharShape.new id)

/-- Embedding of parse_para_shape: default shape carrying the given id. -/
def parseParaShape (_payload : Bytes) (id : Nat) : HwpResult ParaShape :=
  .ok (ParaShape.new id)

/-- Embedding of parse_style: default style carrying the given id. -/
def parseStyle (_payload : Bytes) (id : Nat) : HwpResult Style :=
  .ok ⟨id, "", StyleType.paragraph, 0, 0, 0⟩

/-- Embedding of parse_border_fill: default border fill carrying the id. -/
def parseBorderFill (_payload : Bytes) (id : Nat) : HwpResult BorderFill :=
  .ok ⟨id, Border.noneB, Border.noneB, Border.noneB, Border.noneB, Border.noneB,
       FillType.none, 0, 0xFFFFFF⟩

/-- One dispatch step of parse_docinfo: the match on record.tagid. Ids are
the current table length cast to u32 (len as u32). -/
def docinfoStep (doc : Document) (r : Record) : HwpResult Document :=
  match r.tagid with
  | 19 =>
    match parseFaceName r.payload with
    | .ok name => .ok { doc with fonts := doc.fonts ++ [name] }
    | .error e => .error e
  | 21 =>
    match parseCharShape r.payload (doc.charShapes.length % 4294967296) with
    | .ok cs => .ok { doc with charShapes := doc.charShapes ++ [cs] }
    | .error e => .error e
  | 25 =>
    match parseParaShape r.payload (doc.paraShapes.length % 4294967296) with
    | .ok ps => .ok { doc with paraShapes := doc.paraShapes ++ [ps] }
    | .error e => .error e
  | 26 =>
    match parseStyle r.payload (doc.styles.length % 4294967296) with
    | .ok st => .ok { doc with styles := doc.styles ++ [st] }
    | .error e => .error e
  | 20 =>
    match parseBorderFill r.payload (doc.borderFills.length % 4294967296) with
    | .ok bf => .ok { doc with borderFills := doc.borderFills ++ [bf] }
    | .error e => .error e
  | _ => .ok doc

/-- Embedding of parse_docinfo: drain the record stream, dispatching each
record; Ok none marks record-loop fuel exhaustion (never reached, see the
sufficiency lemma below). -/
def parseDocinfo (data : Bytes) (doc : Document) : HwpResult (Option Document) :=
  match readRecords data with
  | .error e => .error e
  | .ok none => .ok none
  | .ok (some rs) =>
    match rs.foldlM docinfoStep doc with
    | .error e => .error e
    | .ok doc2 => .ok (some doc2)

/-- Embedding of parse_bodytext: drains the record stream of a section
(records are currently discarded) and returns a default section. -/
def parseBodytext (data : Bytes) : HwpResult (Option Section) :=
  match readRecords data with
  | .error e => .error e
  | .ok none => .ok none
  | .ok (some _) => .ok (some Section.new)

/-! ## OLE2 reader (src/parser/ole2.rs) -/

/-- Unwrap an Option into the error monad (Option::ok_or). -/
def okOr {α : Type} (o : Option α) (e : HwpError) : HwpResult α :=
  match o with
  | some v => .ok v
  | none => .error e

structure Ole2Header where
  signature : Bytes
  minorVersion : Nat
  majorVersion : Nat
  byteOrder : Nat
  sectorSizePower : Nat
  miniSectorSizePower : Nat
  numSectors : Nat
  numFatSectors : Nat
  firstDirSector : Nat
  firstMinifatSector : Nat
  numMinifatSectors : Nat
  fat : List Nat
deriving DecidableEq

/-- The FAT-array loop of Ole2Header::parse: read u32 values at
0x4C + i * 4 for i = 0 .. 108, stopping at the first missing read. -/
def readFatLoop (data : Bytes) (i : Nat) : Nat → List Nat
  | 0 => []
  | n + 1 =>
    match readU32le data (0x4C + i * 4) with
    | some v => v :: readFatLoop data (i + 1) n
    | none => []

/-- Embedding of Ole2Header::parse. -/
def Ole2Header.parse (data : Bytes) : HwpResult Ole2Header := do
  if data.length < 512 then
    throw (.invalidFormat "OLE2 header must be at least 512 bytes")
  else if !checkSignature data 0 [0xD0, 0xCF, 0x11, 0xE0, 0xA1, 0xB1, 0x1A, 0xE1] then
    throw .invalidSignature
  else
    let minorVersion ← okOr (readU16le data 0x18) (.parseError "Cannot read minor version")
    let majorVersion ← okOr (readU16le data 0x1A) (.parseError "Cannot read major version")
    let byteOrder ← okOr (readU16le data 0x1C) (.parseError "Cannot read byte order")
    let sectorSizePower ← okOr (readU16le data 0x1E) (.parseError "Cannot read sector size power")
    let miniSectorSizePower ← okOr (readU16le data 0x20)
      (.parseError "Cannot read mini sector size power")
    let numSectors ← okOr (readU32le data 0x30) (.parseError "Cannot read num sectors")
    let numFatSectors ← okOr (readU32le data 0x2C) (.parseError "Cannot read num FAT sectors")
    let firstDirSector ← okOr (readU32le data 0x34) (.parseError "Cannot read first dir sector")
    let firstMinifatSector ← okOr (readU32le data 0x3C)
      (.parseError "Cannot read first minifat sector")
    let numMinifatSectors ← okOr (readU32le data 0x40)
      (.parseError "Cannot read num minifat sectors")
    let fat := readFatLoop data 0 109
    .ok ⟨data.take 8, minorVersion, majorVersion, byteOrder, sectorSizePower,
         miniSectorSizePower, numSectors, numFatSectors, firstDirSector,
         firstMinifatSector, numMinifatSectors, fat⟩

/-- Sector size = 1 << sector_size_power. -/
def Ole2Header.sectorSize (h : Ole2Header) : Nat := 2 ^ h.sectorSizePower

structure DirEntry where
  name : String
  nameLen : Nat
  entryType : Nat
  color : Nat
  leftSibling : Nat
  rightSibling : Nat
  child : Nat
  startSector : Nat
  streamSize : Nat
deriving DecidableEq

/-- Embedding of DirEntry::parse on a 128-byte (at least 64-byte) slice. -/
def DirEntry.parse (data : Bytes) : HwpResult DirEntry := do
  if data.length < 64 then
    throw (.parseError "DirEntry must be 64 bytes")
  else
    let nameBytes := data.take 64
    let nameLen := (readU16le data 64).getD 0
    let name :=
      if nameLen > 0 && nameLen ≤ 32 then
        String.mk (utf16Lossy ((collectPairs nameBytes (nameLen - 1) 0).getD []))
      else ""
    let entryType ← okOr (readU8 data 66) (.parseError "Cannot read entry type")
    let color ← okOr (readU8 data 67) (.parseError "Cannot read color")
    let leftSibling ← okOr (readU32le data 68) (.parseError "Cannot read left sibling")
    let rightSibling ← okOr (readU32le data 72) (.parseError "Cannot read right sibling")
    let child ← okOr (readU32le data 76) (.parseError "Cannot read child")
    let startSector ← okOr (readU32le data 116) (.parseError "Cannot read start sector")
    let streamSize ← okOr (readU32le data 120) (.parseError "Cannot read stream size")
    .ok ⟨name, nameLen, entryType, color, leftSibling, rightSibling, child,
         startSector, streamSize⟩

structure Ole2 where
  header : Ole2Header
  data : Bytes
deriving DecidableEq

/-- Embedding of Ole2::parse. -/
def Ole2.parse (data : Bytes) : HwpResult Ole2 :=
  match Ole2Header.parse data with
  | .error e => .error e
  | .ok h => .ok ⟨h, data⟩

/-- usize::MAX, the unbounded sector cap used by get_stream. -/
def USIZE_MAX : Nat := 18446744073709551615

/-- The read_fat_chain loop: while sector_id is not the end-of-chain
sentinel and the count is below the cap, append the sector bytes (stopping
without error when a sector would run past the buffer or off the FAT). -/
def readFatChainGo (fat : List Nat) (ssz : Nat) (data : Bytes) (sid fuel : Nat) : Bytes :=
  match fuel with
  | 0 => []
  | fuel' + 1 =>
    if sid == 0xFFFFFFFE then []
    else
      let off := 512 + sid * ssz
      if off + ssz > data.length then []
      else
        let chunk := (data.drop off).take ssz
        if h : sid < fat.length then
          chunk ++ readFatChainGo fat ssz data (fat.get ⟨sid, h⟩) fuel'
        else chunk

/-- Embedding of Ole2::read_fat_chain. -/
def Ole2.readFatChain (o : Ole2) (sid maxSectors : Nat) : HwpResult Bytes :=
  .ok (readFatChainGo o.header.fat o.header.sectorSize o.data sid maxSectors)

/-- Embedding of Ole2::read_dir_entry. -/
def Ole2.readDirEntry (o : Ole2) (entryId : Nat) : HwpResult DirEntry :=
  let ssz := o.header.sectorSize
  let entriesPerSector := ssz / 128
  let sid := o.header.firstDirSector + entryId / entriesPerSector
  let entryOffset := entryId % entriesPerSector * 128
  let sectorData := readFatChainGo o.header.fat ssz o.data sid 1
  if entryOffset + 128 > sectorData.length then
    .error (.parseError "Invalid directory entry offset")
  else
    DirEntry.parse ((sectorData.drop entryOffset).take 128)

/-- The list_streams loop. The queue is a stack with the head as the top
(Vec::pop takes the last pushed element; the source pushes child, then
right sibling, then left sibling, so pop order is left, right, child).
The source has no visited set and no iteration cap, so the embedding
carries fuel; Ok none means the loop is still running after that many
iterations. -/
def listStreamsGo (o : Ole2) :
    Nat → List (String × Nat) → List (String × DirEntry) →
    HwpResult (Option (List (String × DirEntry)))
  | _, [], acc => .ok (some acc)
  | 0, _ :: _, _ => .ok none
  | fuel + 1, (path, entryId) :: rest, acc =>
    match o.readDirEntry entryId with
    | .error e => .error e
    | .ok entry =>
      let currentPath := if path == "" then entry.name else path ++ "/" ++ entry.name
      let acc2 := if entry.entryType == 2 then acc ++ [(currentPath, entry)] else acc
      let q1 :=
        if (entry.entryType == 1 || entry.entryType == 5) &&
            !(entry.child == 0xFFFFFFFF) then
          (currentPath, entry.child) :: rest
        else rest
      let q2 :=
        if !(entry.rightSibling == 0xFFFFFFFF) then (path, entry.rightSibling) :: q1
        else q1
      let q3 :=
        if !(entry.leftSibling == 0xFFFFFFFF) then (path, entry.leftSibling) :: q2
        else q2
      listStreamsGo o fuel q3 acc2

/-- Embedding of Ole2::list_streams, starting from (empty path, entry 0). -/
def Ole2.listStreams (o : Ole2) (fuel : Nat) :
    HwpResult (Option (List (String × DirEntry))) :=
  listStreamsGo o fuel [("", 0)] []

/-- Embedding of Ole2::get_stream: first stream whose accumulated path
equals the name; its whole FAT chain is returned (no truncation occurs in
the source). -/
def Ole2.getStream (o : Ole2) (fuel : Nat) (name : String) :
    HwpResult (Option Bytes) :=
  match o.listStreams fuel with
  | .error e => .error e
  | .ok none => .ok none
  | .ok (some streams) =>
    match streams.find? (fun p => p.1 == name) with
    | some (_, entry) =>
      .ok (some (readFatChainGo o.header.fat o.header.sectorSize o.data
        entry.startSector USIZE_MAX))
    | none => .error (.notFound ("Stream \x27" ++ name ++ "\x27 not found"))

/-! ## parse_hwp (src/format/mod.rs) -/

/-- Stream name of the n-th BodyText section. -/
def sectionName (idx : Nat) : String := "BodyText/Section" ++ toString idx

/-- The BodyText section loop of parse_hwp: starting at index 0, read
BodyText/SectionN until the first get_stream error (any error breaks the
loop), appending a parsed section each time. sfuel bounds the number of
loop iterations; Ok none marks fuel exhaustion of this loop, of the
directory traversal, or of the record loop. -/
def parseBodySections (o : Ole2) (fuel : Nat) :
    Nat → Nat → Document → HwpResult (Option Document)
  | 0, _, _ => .ok none
  | sfuel + 1, idx, doc =>
    match o.getStream fuel (sectionName idx) with
    | .error _ => .ok (some doc)
    | .ok none => .ok none
    | .ok (some bodyData) =>
      match parseBodytext bodyData with
      | .error e => .error e
      | .ok none => .ok none
      | .ok (some sect) =>
        parseBodySections o fuel sfuel (idx + 1)
          { doc with sections := doc.sections ++ [sect] }

/-- Embedding of parse_hwp. fuel bounds the directory traversal inside
each get_stream call; sfuel bounds the BodyText section loop. -/
def parseHwp (data : Bytes) (fuel sfuel : Nat) : HwpResult (Option Document) :=
  match Ole2.parse data with
  | .error e => .error e
  | .ok o =>
    match o.getStream fuel "FileHeader" with
    | .error e => .error e
    | .ok none => .ok none
    | .ok (some _) =>
      match o.getStream fuel "DocInfo" with
      | .ok none => .ok none
      | .ok (some docinfoData) =>
        match parseDocinfo docinfoData Document.new with
        | .error e => .error e
        | .ok none => .ok none
        | .ok (some doc) => parseBodySections o fuel sfuel 0 doc
      | .error _ => parseBodySections o fuel sfuel 0 Document.new

/-- Embedding of parse_hwpx: a stub that always fails. -/
def parseHwpx (_data : Bytes) : HwpResult Document :=
  .error (.parseError "HWPX parsing not yet implemented")

/-! ## ZIP packager (src/writer/zip_utils.rs) -/

/-- One round of the bitwise CRC-32: mask is the polynomial when the low
bit is set ((crc & 1).wrapping_neg() & 0xEDB88320), then shift and xor. -/
def crcRound (crc : Nat) : Nat :=
  let mask := if crc % 2 == 1 then 0xEDB88320 else 0
  (crc / 2) ^^^ mask

/-- Iterate crcRound n times. -/
def crcRounds : Nat → Nat → Nat
  | 0, c => c
  | n + 1, c => crcRounds n (crcRound c)

/-- Embedding of crc32: initial value 0xFFFFFFFF, 8 rounds per byte,
final bitwise complement (xor with 0xFFFFFFFF on the 32-bit domain). -/
def crc32 (data : Bytes) : Nat :=
  (data.foldl (fun c b => crcRounds 8 (c ^^^ b)) 0xFFFFFFFF) ^^^ 0xFFFFFFFF

/-- Standard UTF-8 encoding of one scalar value (str::as_bytes). -/
def utf8Char (n : Nat) : Bytes :=
  if n < 0x80 then [n]
  else if n < 0x800 then [0xC0 + n / 64, 0x80 + n % 64]
  else if n < 0x10000 then [0xE0 + n / 4096, 0x80 + n / 64 % 64, 0x80 + n % 64]
  else [0xF0 + n / 262144, 0x80 + n / 4096 % 64, 0x80 + n / 64 % 64, 0x80 + n % 64]

/-- UTF-8 bytes of a string (name.as_bytes() / String::into_bytes). -/
def utf8Bytes (s : String) : Bytes :=
  (s.data.map (fun c => utf8Char c.toNat)).flatten

/-- The local file header written for one stored entry. u16le and u32le
truncate exactly as the `as u16` / `as u32` casts in the source do. -/
def localHeader (name : String) (data : Bytes) : Bytes :=
  let nameBytes := utf8Bytes name
  u32le 0x04034B50 ++ u16le 20 ++ u16le 0 ++ u16le 0 ++ u16le 0 ++ u16le 0 ++
  u32le (crc32 data) ++ u32le data.length ++ u32le data.length ++
  u16le nameBytes.length ++ u16le 0 ++ nameBytes ++ data

/-- The central directory header written for one entry at a given local
header offset. -/
def centralHeader (name : String) (data : Bytes) (offset : Nat) : Bytes :=
  let nameBytes := utf8Bytes name
  u32le 0x02014B50 ++ u16le 20 ++ u16le 20 ++ u16le 0 ++ u16le 0 ++ u16le 0 ++
  u16le 0 ++ u32le (crc32 data) ++ u32le data.length ++ u32le data.length ++
  u16le nameBytes.length ++ u16le 0 ++ u16le 0 ++ u16le 0 ++ u16le 0 ++
  u32le 0 ++ u32le offset ++ nameBytes

/-- The end-of-central-directory record. -/
def eocdRecord (n csize coffset : Nat) : Bytes :=
  u32le 0x06054B50 ++ u16le 0 ++ u16le 0 ++ u16le n ++ u16le n ++
  u32le csize ++ u32le coffset ++ u16le 0

/-- The entry loop of write_zip_stored: accumulate the local headers in
out and the central headers in central, recording out.len() as each
entry's offset just before its local header is appended. -/
def zipFold (entries : List (String × Bytes)) : Bytes × Bytes :=
  entries.foldl
    (fun acc e => (acc.1 ++ localHeader e.1 e.2, acc.2 ++ centralHeader e.1 e.2 acc.1.length))
    ([], [])

/-- The bytes produced by write_zip_stored. -/
def zipBytes (entries : List (String × Bytes)) : Bytes :=
  let out := (zipFold entries).1
  let central := (zipFold entries).2
  out ++ central ++ eocdRecord entries.length central.length out.length

/-- Embedding of write_zip_stored (the source wraps the bytes in Ok and
never fails). -/
def writeZipStored (entries : List (String × Bytes)) : HwpResult Bytes :=
  .ok (zipBytes entries)

/-! ## Numeric rendering helpers for the ODT writer (src/common/types.rs)

The source formats HwpUnit conversions through f64 ({} for to_pt, {:?} for
to_mm). The exact shortest-round-trip decimal rendering of f64 is not
modelled; ptDisplay is exact on the value grid reachable from to_pt
(multiples of 0.05, whose shortest rendering agrees with the exact
decimal), and mmDebug renders the exact rational value of to_mm to at
most twelve fractional digits. No claim depends on these strings beyond
their being opaque text. -/

/-- Decimal digit character. -/
def digitChar (d : Nat) : Char := Char.ofNat (48 + d)

/-- Display of HwpUnit::to_pt (value / 20) as Rust prints the f64:
no decimal point for integers, else the exact fraction (.05 grid). -/
def ptDisplay (u : HwpUnit) : String :=
  let sign := if u < 0 then "-" else ""
  let a := u.natAbs
  let ip := a / 20
  let hund := a % 20 * 5
  if hund == 0 then sign ++ toString ip
  else if hund % 10 == 0 then sign ++ toString ip ++ "." ++ toString (hund / 10)
  else sign ++ toString ip ++ "." ++
    (if hund < 10 then "0" ++ toString hund else toString hund)

/-- Fractional digits of rem/den, at most fuel digits, trailing zeros cut. -/
def fracDigitsGo (den : Nat) : Nat → Nat → List Char
  | _, 0 => []
  | rem, fuel + 1 =>
    let d := rem * 10 / den
    let r2 := rem * 10 % den
    digitChar d :: (if r2 == 0 then [] else fracDigitsGo den r2 fuel)

/-- Debug rendering of HwpUnit::to_mm (value * 25.4 / 7200 =
value * 127 / 36000): always carries a decimal point, as {:?} does. -/
def mmDebug (u : HwpUnit) : String :=
  let sign := if u < 0 then "-" else ""
  let a := u.natAbs * 127
  let ip := a / 36000
  let rem := a % 36000
  let frac := if rem == 0 then ['0'] else fracDigitsGo 36000 rem 12
  sign ++ toString ip ++ "." ++ String.mk frac

/-- Alignment::to_odt_str. -/
def alignmentToOdt : Alignment → String
  | .left => "left"
  | .right => "right"
  | .center => "center"
  | .justify => "justify"
  | .distribute => "distribute"

/-- Color::to_hex: # followed by at least six uppercase hex digits. -/
def colorHex (c : Color) : String :=
  let digits := (Nat.toDigits 16 c).map Char.toUpper
  "#" ++ String.mk (List.replicate (6 - digits.length) '0' ++ digits)

/-! ## ODT writer (src/writer/mod.rs) -/

/-- Embedding of escape_xml_for_content: replace the three characters
ampersand, less-than, greater-than; every other character passes through. -/
def escapeXmlForContent (text : String) : String :=
  String.mk ((text.data.map fun c =>
    if c = '&' then "&amp;".data
    else if c = '<' then "&lt;".data
    else if c = '>' then "&gt;".data
    else [c]).flatten)

/-- Embedding of generate_manifest. -/
def generateManifest : String :=
  "<?xml version=\"1.0\" encoding=\"UTF-8\"?>\n<manifest:manifest xmlns:manifest=\"urn:oasis:names:tc:opendocument:xmlns:manifest:1.0\" manifest:version=\"1.2\">\n  <manifest:file-entry manifest:media-type=\"application/vnd.oasis.opendocument.text\" manifest:full-path=\"/\"/>\n  <manifest:file-entry manifest:media-type=\"text/xml\" manifest:full-path=\"content.xml\"/>\n  <manifest:file-entry manifest:media-type=\"text/xml\" manifest:full-path=\"styles.xml\"/>\n  <manifest:file-entry manifest:media-type=\"text/xml\" manifest:full-path=\"settings.xml\"/>\n  <manifest:file-entry manifest:media-type=\"text/xml\" manifest:full-path=\"meta.xml\"/>\n</manifest:manifest>"

/-- Embedding of generate_settings_xml. -/
def generateSettingsXml : String :=
  "<?xml version=\"1.0\" encoding=\"UTF-8\"?>\n<office:document-settings\n  xmlns:office=\"urn:oasis:names:tc:opendocument:xmlns:office:1.0\"\n  office:version=\"1.2\">\n  <office:settings/>\n</office:document-settings>"

/-- Embedding of generate_meta_xml. -/
def generateMetaXml : String :=
  "<?xml version=\"1.0\" encoding=\"UTF-8\"?>\n<office:document-meta\n  xmlns:office=\"urn:oasis:names:tc:opendocument:xmlns:office:1.0\"\n  xmlns:meta=\"urn:oasis:names:tc:opendocument:xmlns:meta:1.0\"\n  xmlns:dc=\"http://purl.org/dc/elements/1.1/\"\n  office:version=\"1.2\">\n  <office:meta>\n    <meta:generator>HanCon/Rust</meta:generator>\n  </office:meta>\n</office:document-meta>"

/-- The font-face fragment written per font, identical in
generate_content_xml and generate_styles_xml; the font name is
interpolated into the svg:font-family attribute verbatim (between
apostrophes), with no escaping. -/
def fontFaceFrag (idx : Nat) (fontName : String) : String :=
  "\n    <style:font-face style:name=\"F" ++ toString idx ++
  "\" svg:font-family=\"\x27" ++ fontName ++
  "\x27\"\n      style:font-family-generic=\"swiss\" style:font-pitch=\"variable\"/>"

/-- The fonts.iter().enumerate() loop emitting one fragment per font. -/
def fontFaceFrags (k : Nat) : List String → String
  | [] => ""
  | f :: fs => fontFaceFrag k f ++ fontFaceFrags (k + 1) fs

/-- Embedding of generate_inline_content for the Field variants. -/
def genField : Field → String
  | .pageNumber => "<text:page-number/>"
  | .pageCount => "<text:page-count/>"
  | .date => "<text:date/>"
  | .time => "<text:time/>"
  | _ => ""

mutual

/-- Embedding of generate_block_content. The HashMap grouping of table
cells by row index preserves per-row insertion order, which equals
filtering the cell list by row in order (genCellsOnRow). -/
def genBlock : Block → String
  | .paragraph (.mk _ styleId _ _ _ paraInlines) =>
    "\n      <text:p text:style-name=\"P" ++ toString styleId ++ "\">" ++
    genInlines paraInlines ++ "\n      </text:p>"
  | .table (.mk tid rows _ cells _) =>
    "\n      <table:table table:name=\"Table" ++ toString tid ++
    "\" table:style-name=\"Table1\">" ++ genRows cells rows 0 ++
    "\n      </table:table>"
  | .shape _ => ""
termination_by b => sizeOf b
decreasing_by all_goals (simp_wf; try omega)

def genBlocks : List Block → String
  | [] => ""
  | b :: bs => genBlock b ++ genBlocks bs
termination_by bs => sizeOf bs
decreasing_by all_goals (simp_wf; try omega)

/-- Embedding of generate_inline_content. -/
def genInline : Inline → String
  | .text tr =>
    "\n        <text:span text:style-name=\"T" ++ toString tr.charShapeId ++
    "\">" ++ escapeXmlForContent tr.text ++ "</text:span>"
  | .control _ => ""
  | .field f => genField f

def genInlines : List Inline → String
  | [] => ""
  | i :: is => genInline i ++ genInlines is
termination_by is => sizeOf is
decreasing_by all_goals (simp_wf; try omega)

/-- The row loop: for row_idx in 0..rows emit a table-row holding the
cells whose row field equals row_idx. -/
def genRows (cells : List TableCell) (rows r : Nat) : String :=
  if r < rows then
    "\n        <table:table-row>\n" ++ genCellsOnRow cells r ++
    "        </table:table-row>" ++ genRows cells rows (r + 1)
  else ""
termination_by sizeOf cells + (rows - r) + 1
decreasing_by all_goals (simp_wf; try omega)

def genCellsOnRow : List TableCell → Nat → String
  | [], _ => ""
  | .mk row _ _ _ content :: restCells, r =>
    (if row == r then
      "          <table:table-cell table:value-type=\"string\">" ++
      genBlocks content ++ "\n          </table:table-cell>\n"
    else "") ++ genCellsOnRow restCells r
termination_by cells _ => sizeOf cells
decreasing_by all_goals (simp_wf; try omega)

end

/-- The per-section, per-block serialisation loop of
generate_content_xml. -/
def genSectionBlocks : List Section → String
  | [] => ""
  | s :: ss => genBlocks s.blocks ++ genSectionBlocks ss

/-- Embedding of generate_content_xml (the source wraps the string in Ok
and has no failing path). -/
def generateContentXml (doc : Document) : String :=
  "<?xml version=\"1.0\" encoding=\"UTF-8\"?>\n<office:document-content\n  xmlns:office=\"urn:oasis:names:tc:opendocument:xmlns:office:1.0\"\n  xmlns:text=\"urn:oasis:names:tc:opendocument:xmlns:text:1.0\"\n  xmlns:table=\"urn:oasis:names:tc:opendocument:xmlns:table:1.0\"\n  xmlns:draw=\"urn:oasis:names:tc:opendocument:xmlns:drawing:1.0\"\n  xmlns:xlink=\"http://www.w3.org/1999/xlink\"\n  office:version=\"1.2\">\n  <office:scripts/>\n  <office:font-face-decls>" ++
  fontFaceFrags 0 doc.fonts ++
  "\n  </office:font-face-decls>\n  <office:automatic-styles/>\n  <office:body>\n    <office:text>" ++
  genSectionBlocks doc.sections ++
  "\n    </office:text>\n  </office:body>\n</office:document-content>"

/-- The per-char-shape style fragment of generate_styles_xml. -/
def charShapeStyleFrag (cs : CharShape) : String :=
  "\n    <style:style style:name=\"T" ++ toString cs.id ++
  "\" style:family=\"text\">\n      <style:text-properties style:font-name=\"F" ++
  toString cs.fontId ++ "\" fo:font-size=\"" ++ ptDisplay cs.fontSize ++
  "pt\" fo:color=\"" ++ colorHex cs.color ++ "\"" ++
  (if cs.bold then " fo:font-weight=\"bold\"" else "") ++ "/>" ++
  "\n    </style:style>"

/-- The per-para-shape style fragment of generate_styles_xml. -/
def paraShapeStyleFrag (ps : ParaShape) : String :=
  "\n    <style:style style:name=\"P" ++ toString ps.id ++
  "\" style:family=\"paragraph\">\n      <style:paragraph-properties fo:text-align=\"" ++
  alignmentToOdt ps.alignment ++ "\" fo:margin-left=\"" ++ mmDebug ps.indentLeft ++
  "mm\" fo:margin-right=\"" ++ mmDebug ps.indentRight ++ "mm\"/>" ++
  "\n    </style:style>"

/-- Embedding of generate_styles_xml. -/
def generateStylesXml (doc : Document) : String :=
  "<?xml version=\"1.0\" encoding=\"UTF-8\"?>\n<office:document-styles\n  xmlns:office=\"urn:oasis:names:tc:opendocument:xmlns:office:1.0\"\n  xmlns:style=\"urn:oasis:names:tc:opendocument:xmlns:style:1.0\"\n  xmlns:text=\"urn:oasis:names:tc:opendocument:xmlns:text:1.0\"\n  xmlns:table=\"urn:oasis:names:tc:opendocument:xmlns:table:1.0\"\n  xmlns:fo=\"urn:oasis:names:tc:opendocument:xmlns:xsl-fo-compatible:1.0\"\n  xmlns:svg=\"urn:oasis:names:tc:opendocument:xmlns:svg-compatible:1.0\"\n  office:version=\"1.2\">\n  <office:font-face-decls>" ++
  fontFaceFrags 0 doc.fonts ++
  "\n  </office:font-face-decls>\n  <office:styles>\n    <style:default-style style:family=\"paragraph\">\n      <style:paragraph-properties/>\n      <style:text-properties/>\n    </style:default-style>" ++
  String.join (doc.charShapes.map charShapeStyleFrag) ++
  String.join (doc.paraShapes.map paraShapeStyleFrag) ++
  "\n  </office:styles>\n  <office:automatic-styles>\n    <style:style style:name=\"Table1\" style:family=\"table\">\n      <style:table-properties table:border-model=\"collapsing\"/>\n    </style:style>\n  </office:automatic-styles>\n  <office:master-styles>\n    <style:master-page style:name=\"Standard\" style:page-layout-name=\"pm1\"/>\n  </office:master-styles>\n</office:document-styles>"

/-- The mimetype literal. -/
def mimeLit : String := "application/vnd.oasis.opendocument.text"

/-- The six entries pushed by generate_odt, in source order. -/
def odtEntries (doc : Document) : List (String × Bytes) :=
  [("mimetype", utf8Bytes mimeLit),
   ("META-INF/manifest.xml", utf8Bytes generateManifest),
   ("content.xml", utf8Bytes (generateContentXml doc)),
   ("styles.xml", utf8Bytes (generateStylesXml doc)),
   ("settings.xml", utf8Bytes generateSettingsXml),
   ("meta.xml", utf8Bytes generateMetaXml)]

/-- Embedding of generate_odt: package the six entries as a stored ZIP. -/
def generateOdt (doc : Document) : HwpResult Bytes :=
  writeZipStored (odtEntries doc)

/-- The bytes of the generated ODT archive. -/
def generateOdtBytes (doc : Document) : Bytes :=
  zipBytes (odtEntries doc)

/-! ## Concrete OLE2 containers used as inputs in the theorems below

All concrete containers use sector_size_power 7 (128-byte sectors, one
directory entry per sector) to keep the buffers small. -/

/-- UTF-16LE bytes of an ASCII stream name. -/
def utf16leName (s : String) : Bytes :=
  (s.data.map (fun c => [c.toNat % 256, c.toNat / 256])).flatten

/-- The 109-entry inline FAT with end-of-chain sentinels at the given
sector ids and 0 elsewhere. -/
def stdFat (ends : List Nat) : List Nat :=
  (List.range 109).map (fun i => if ends.contains i then 0xFFFFFFFE else 0)

/-- A 512-byte OLE2 header block: valid signature, 128-byte sectors
(power 7), directory starting at sector 0, inline FAT as in stdFat. -/
def oleHeaderBytes (ends : List Nat) : Bytes :=
  [0xD0, 0xCF, 0x11, 0xE0, 0xA1, 0xB1, 0x1A, 0xE1] ++ List.replicate 22 0 ++
  [7, 0] ++ [6, 0] ++ List.replicate 42 0 ++
  ((List.range 109).map
    (fun i => if ends.contains i then [0xFE, 0xFF, 0xFF, 0xFF] else [0, 0, 0, 0])).flatten

/-- The parsed header such a block produces. -/
def stdHeader (ends : List Nat) : Ole2Header :=
  ⟨[0xD0, 0xCF, 0x11, 0xE0, 0xA1, 0xB1, 0x1A, 0xE1], 0, 0, 0, 7, 6, 0, 0, 0, 0, 0,
   stdFat ends⟩

/-- A 128-byte directory entry block; name16 occupies the front of the
64-byte name area (bytes beyond the declared name length are ignored by
the parser, so they may hold arbitrary padding). -/
def dirEntryBytes (name16 : Bytes) (nameLen ty left right child start size : Nat) :
    Bytes :=
  name16 ++ List.replicate (64 - name16.length) 0 ++
  u16le nameLen ++ [ty, 1] ++ u32le left ++ u32le right ++ u32le child ++
  List.replicate 36 0 ++ u32le start ++ u32le size ++ List.replicate 4 0

def FREE : Nat := 0xFFFFFFFF

/-- Container whose root directory entry lists itself as its right
sibling: a directory cycle. One directory sector, nothing else. -/
def cycBuf : Bytes :=
  oleHeaderBytes [] ++
  dirEntryBytes [] 0 5 FREE 0 FREE 0 0

def cycOle : Ole2 := ⟨stdHeader [], cycBuf⟩

/-- Container holding a single stream "S" with stream_size 5 whose FAT
chain is one full 128-byte sector (sector 2). -/
def c1Buf : Bytes :=
  oleHeaderBytes [2] ++
  dirEntryBytes [] 0 5 FREE FREE 1 0 0 ++
  dirEntryBytes (utf16leName "S") 2 2 FREE FREE FREE 2 5 ++
  List.range 128

def c1Ole : Ole2 := ⟨stdHeader [2], c1Buf⟩

/-- The directory entry of stream "S" in c1Buf. -/
def c1Entry : DirEntry := ⟨"S", 2, 2, 1, FREE, FREE, FREE, 2, 5⟩

/-- Container with streams FileHeader and BodyText/Section0 and no
DocInfo. FileHeader points its chain out of range (clamped to empty
without error). Section0 points its chain at sector 0 — the root
directory entry block, whose unused name area starts with
FF FF FF FF FF FF FF FF: an extended-size record header whose declared
payload exceeds the stream. -/
def c10badBuf : Bytes :=
  oleHeaderBytes [0] ++
  dirEntryBytes (List.replicate 8 0xFF) 0 5 FREE FREE 1 0 0 ++
  dirEntryBytes (utf16leName "FileHeader") 20 2 FREE 2 FREE 99 0 ++
  dirEntryBytes (utf16leName "BodyText") 16 1 FREE FREE 3 0 0 ++
  dirEntryBytes (utf16leName "Section0") 16 2 FREE FREE FREE 0 16

def c10badOle : Ole2 := ⟨stdHeader [0], c10badBuf⟩

/-- Container with only a FileHeader stream whose chain is empty (start
sector out of range, clamped without error). -/
def c10goodBuf : Bytes :=
  oleHeaderBytes [] ++
  dirEntryBytes [] 0 5 FREE FREE 1 0 0 ++
  dirEntryBytes (utf16leName "FileHeader") 20 2 FREE FREE FREE 99 0

def c10goodOle : Ole2 := ⟨stdHeader [], c10goodBuf⟩

/-- Default entities used only as getD fallbacks in statements. -/
def defaultStyle : Style := ⟨0, "", StyleType.paragraph, 0, 0, 0⟩

def defaultBorderFill : BorderFill :=
  ⟨0, Border.noneB, Border.noneB, Border.noneB, Border.noneB, Border.noneB,
   FillType.none, 0, 0xFFFFFF⟩

/-- Every entity id in the char-shape, para-shape, style and border-fill
tables equals its 0-based position (as long as the position fits in u32,
matching the len-as-u32 cast in the source). -/
def tablesOrdinal (doc : Document) : Prop :=
  (∀ i, i < doc.charShapes.length → i < 4294967296 →
    (doc.charShapes.getD i (CharShape.new 0)).id = i) ∧
  (∀ i, i < doc.paraShapes.length → i < 4294967296 →
    (doc.paraShapes.getD i (ParaShape.new 0)).id = i) ∧
  (∀ i, i < doc.styles.length → i < 4294967296 →
    (doc.styles.getD i defaultStyle).id = i) ∧
  (∀ i, i < doc.borderFills.length → i < 4294967296 →
    (doc.borderFills.getD i defaultBorderFill).id = i)


/-! ### Byte-layout vocabulary for the ZIP statements -/

/-- Concatenation of the local file headers of the entries, in order. -/
def localsJoin (entries : List (String × Bytes)) : Bytes :=
  (entries.map (fun e => localHeader e.1 e.2)).flatten

/-- Concatenation of the central directory headers, threading the running
local-header offset that the source records for each entry. -/
def centralsJoin (base : Nat) : List (String × Bytes) → Bytes
  | [] => []
  | e :: es =>
    centralHeader e.1 e.2 base ++
    centralsJoin (base + (localHeader e.1 e.2).length) es

/-- Absolute byte offset of entry i's local file header in the archive. -/
def localPos : List (String × Bytes) → Nat → Nat
  | _, 0 => 0
  | [], _ + 1 => 0
  | e :: es, i + 1 => (localHeader e.1 e.2).length + localPos es i

/-- Byte offset of entry i's central header within the central directory. -/
def centralPos : List (String × Bytes) → Nat → Nat
  | _, 0 => 0
  | [], _ + 1 => 0
  | e :: es, i + 1 => 46 + (utf8Bytes e.1).length + centralPos es i


/-- The two-entry packager input of the spec scenario. -/
def demoEntries : List (String × Bytes) :=
  [("mimetype", utf8Bytes mimeLit), ("a.txt", utf8Bytes "hello")]


/-- Boolean test: the first list is an initial segment of the second. -/
def listPre : List Char → List Char → Bool
  | [], _ => true
  | _ :: _, [] => false
  | a :: as, b :: bs => a == b && listPre as bs

/-- Boolean test: the first list occurs contiguously inside the second. -/
def listSub (n : List Char) : List Char → Bool
  | [] => n.isEmpty
  | c :: hs => listPre n (c :: hs) || listSub n hs

/-- Boolean substring test on strings. -/
def strSub (needle hay : String) : Bool := listSub needle.data hay.data

/-- A document whose single font name contains a double quote. -/
def c4doc : Document := { Document.new with fonts := ["A\"B"] }

/-! # Theorems

General helper lemmas first, then one main theorem per claim (with its
witness or counterexample where applicable). -/

theorem getD_shift (a b : Bytes) (j : Nat) :
    (a ++ b).getD (a.length + j) 0 = b.getD j 0 := by
  rw [List.getD_append_right a b 0 _ (by omega)]
  congr 1
  omega

theorem readU16le_shift (a b : Bytes) (k : Nat) :
    readU16le (a ++ b) (a.length + k) = readU16le b k := by
  simp only [readU16le, List.length_append]
  have e0 := getD_shift a b k
  have e1 := getD_shift a b (k + 1)
  rw [show a.length + k + 1 = a.length + (k + 1) by omega, e0, e1]
  split_ifs <;> first | rfl | omega

theorem readU32le_shift (a b : Bytes) (k : Nat) :
    readU32le (a ++ b) (a.length + k) = readU32le b k := by
  simp only [readU32le, List.length_append]
  have e0 := getD_shift a b k
  have e1 := getD_shift a b (k + 1)
  have e2 := getD_shift a b (k + 2)
  have e3 := getD_shift a b (k + 3)
  rw [show a.length + k + 1 = a.length + (k + 1) by omega,
      show a.length + k + 2 = a.length + (k + 2) by omega,
      show a.length + k + 3 = a.length + (k + 3) by omega, e0, e1, e2, e3]
  split_ifs <;> first | rfl | omega

theorem readU16le_within (a b : Bytes) (k : Nat) (h : k + 2 ≤ a.length) :
    readU16le (a ++ b) k = readU16le a k := by
  simp only [readU16le, List.length_append]
  rw [List.getD_append _ _ _ _ (by omega), List.getD_append _ _ _ _ (by omega)]
  split_ifs <;> first | rfl | omega

theorem readU32le_within (a b : Bytes) (k : Nat) (h : k + 4 ≤ a.length) :
    readU32le (a ++ b) k = readU32le a k := by
  simp only [readU32le, List.length_append]
  rw [List.getD_append _ _ _ _ (by omega), List.getD_append _ _ _ _ (by omega),
      List.getD_append _ _ _ _ (by omega), List.getD_append _ _ _ _ (by omega)]
  split_ifs <;> first | rfl | omega

theorem readU16le_u16le (v : Nat) (rest : Bytes) :
    readU16le (u16le v ++ rest) 0 = some (v % 65536) := by
  simp [readU16le, u16le]
  omega

theorem readU32le_u32le (v : Nat) (rest : Bytes) :
    readU32le (u32le v ++ rest) 0 = some (v % 4294967296) := by
  simp [readU32le, u32le]
  omega

theorem u16le_length (v : Nat) : (u16le v).length = 2 := rfl

theorem u32le_length (v : Nat) : (u32le v).length = 4 := rfl

theorem checkSignature_iff (data sig : Bytes) :
    checkSignature data 0 sig = true ↔
      sig.length ≤ data.length ∧ data.take sig.length = sig := by
  simp only [checkSignature, Nat.zero_add, List.drop_zero]
  split_ifs with h
  · simp [h]
  · simp [h]

/-! ### C8: format detection -/

/-- C8: detect_format returns HWP exactly when the first 8 bytes are the
OLE2 signature, HWPX exactly when the first 4 bytes are 50 4B 03 04 and
the input is not an OLE2 file, and an InvalidFormat error exactly
otherwise. -/
theorem detect_format_bijection (data : Bytes) :
    (detectFormat data = .ok .hwp ↔ 8 ≤ data.length ∧ data.take 8 = ole2Sig) ∧
    (detectFormat data = .ok .hwpx ↔
      (4 ≤ data.length ∧ data.take 4 = pkSig) ∧
      ¬(8 ≤ data.length ∧ data.take 8 = ole2Sig)) ∧
    (isInvalidFormatErr (detectFormat data) = true ↔
      ¬(8 ≤ data.length ∧ data.take 8 = ole2Sig) ∧
      ¬(4 ≤ data.length ∧ data.take 4 = pkSig)) := by
  have hole : checkSignature data 0 ole2Sig = true ↔
      8 ≤ data.length ∧ data.take 8 = ole2Sig := by
    simpa using checkSignature_iff data ole2Sig
  have hpk : checkSignature data 0 pkSig = true ↔
      4 ≤ data.length ∧ data.take 4 = pkSig := by
    simpa using checkSignature_iff data pkSig
  have hdisj : (4 ≤ data.length ∧ data.take 4 = pkSig) →
      ¬(8 ≤ data.length ∧ data.take 8 = ole2Sig) := by
    rintro ⟨-, h4⟩ ⟨-, h8⟩
    match data, h4, h8 with
    | b :: rest, h4, h8 =>
      simp [pkSig, List.take] at h4
      simp [ole2Sig, List.take] at h8
      omega
  unfold detectFormat
  split_ifs with hsmall h1 h2
  · refine ⟨⟨fun h => h.elim, fun ⟨h8, _⟩ => (by omega : False).elim⟩,
      ⟨fun h => h.elim, fun ⟨⟨h4, _⟩, _⟩ => (by omega : False).elim⟩,
      fun _ => ⟨fun ⟨h8, _⟩ => (by omega : False).elim,
                fun ⟨h4, _⟩ => (by omega : False).elim⟩,
      fun _ => rfl⟩
  · refine ⟨by simp [hole.mp h1], ?_, ?_⟩
    · simp only [show (Except.ok FileFormat.hwp : HwpResult FileFormat) =
        .ok .hwpx ↔ False by simp, false_iff]
      rintro ⟨-, hno⟩
      exact hno (hole.mp h1)
    · simp only [isInvalidFormatErr, Bool.false_eq_true, false_iff]
      rintro ⟨hno, -⟩
      exact hno (hole.mp h1)
  · have h4 := hpk.mp h2
    have hno : ¬(8 ≤ data.length ∧ data.take 8 = ole2Sig) := fun hc => h1 (hole.mpr hc)
    refine ⟨?_, by simp [h4, hno], ?_⟩
    · simp only [show (Except.ok FileFormat.hwpx : HwpResult FileFormat) =
        .ok .hwp ↔ False by simp, false_iff]
      intro hc
      exact hno hc
    · simp only [isInvalidFormatErr, Bool.false_eq_true, false_iff]
      rintro ⟨-, hnopk⟩
      exact hnopk h4
  · have hnole : ¬(8 ≤ data.length ∧ data.take 8 = ole2Sig) := fun hc => h1 (hole.mpr hc)
    have hnopk : ¬(4 ≤ data.length ∧ data.take 4 = pkSig) := fun hc => h2 (hpk.mpr hc)
    refine ⟨by simp [hnole], by simp [hnopk, hnole], ?_⟩
    simp [isInvalidFormatErr, hnole, hnopk]

/-- C8 witness: the bijection applied to the concrete OLE2-signature
buffer, a PK buffer, and the 5-byte garbage buffer from the spec. -/
theorem detect_format_bijection_witness :
    detectFormat [0xD0, 0xCF, 0x11, 0xE0, 0xA1, 0xB1, 0x1A, 0xE1, 0, 0] = .ok .hwp ∧
    detectFormat [0x50, 0x4B, 0x03, 0x04] = .ok .hwpx ∧
    isInvalidFormatErr (detectFormat [1, 2, 3, 4, 5]) = true :=
  ⟨(detect_format_bijection _).1.mpr (by decide),
   (detect_format_bijection _).2.1.mpr (by decide),
   (detect_format_bijection _).2.2.mpr (by decide)⟩

/-! ### C2: directory traversal on a cyclic tree -/

/-- C2: the claim that list_streams terminates on cyclic sibling pointers
fails. On cycBuf (a well-formed header whose root directory entry names
itself as its right sibling) the traversal loop never finishes: for every
iteration bound the fueled embedding still reports the loop as running,
because each iteration pops (\"\", 0) and pushes (\"\", 0) back. -/
theorem list_streams_cycle_diverges :
    Ole2.parse cycBuf = .ok cycOle ∧
    cycOle.readDirEntry 0 = .ok ⟨"", 0, 5, 1, FREE, 0, FREE, 0, 0⟩ ∧
    ∀ (fuel : Nat) (acc : List (String × DirEntry)),
      listStreamsGo cycOle fuel [("", 0)] acc = .ok none := by
  refine ⟨by decide, by decide, ?_⟩
  intro fuel
  induction fuel with
  | zero => intro acc; rfl
  | succ n ih =>
    intro acc
    have hstep : listStreamsGo cycOle (n + 1) [("", 0)] acc =
        listStreamsGo cycOle n [("", 0)] acc := rfl
    rw [hstep]
    exact ih acc

/-! ### Record encoding lemmas (towards C3 and C7) -/

theorem readU32le_some_le {data : Bytes} {off w : Nat}
    (h : readU32le data off = some w) : off + 4 ≤ data.length := by
  by_contra hno
  unfold readU32le at h
  rw [if_neg hno] at h
  cases h

theorem encodeRecord_length (r : RecSpec) :
    (encodeRecord r).length =
      (if r.payload.length < 4095 then 4 else 8) + r.payload.length := by
  unfold encodeRecord
  split_ifs <;> simp [u32le] <;> omega

theorem encodeRecord_length_ge (r : RecSpec) : 4 ≤ (encodeRecord r).length := by
  rw [encodeRecord_length]
  split_ifs <;> omega

/-- The packed header word round-trips through the bit-field extraction. -/
theorem packedWord_fields (t l s : Nat) (ht : t < 1024) (hl : l < 1024)
    (hs : s ≤ 4095) :
    (t + 1024 * l + 1048576 * s) % 1024 = t ∧
    (t + 1024 * l + 1048576 * s) / 1024 % 1024 = l ∧
    (t + 1024 * l + 1048576 * s) / 1048576 % 4096 = s ∧
    t + 1024 * l + 1048576 * s < 4294967296 := by
  omega

theorem nextRecord_encode (pre rest : Bytes) (r : RecSpec) (hwf : r.WF) :
    nextRecord (pre ++ (encodeRecord r ++ rest)) pre.length =
      .ok (some (r.toRecord, pre.length + (encodeRecord r).length)) := by
  obtain ⟨ht, hl, hlen32⟩ := hwf
  have hdrop : (pre ++ (encodeRecord r ++ rest)).drop pre.length =
      encodeRecord r ++ rest := List.drop_left pre _
  have hlen : (pre ++ (encodeRecord r ++ rest)).length =
      pre.length + (encodeRecord r).length + rest.length := by
    simp [List.length_append]; omega
  have hpos : ¬(pre.length ≥ (pre ++ (encodeRecord r ++ rest)).length) := by
    have := encodeRecord_length_ge r
    omega
  unfold nextRecord
  rw [if_neg hpos, hdrop]
  by_cases hsmall : r.payload.length < 4095
  · -- 4-byte header
    set w := r.tag + 1024 * r.level + 1048576 * r.payload.length with hw
    have henc : encodeRecord r = u32le w ++ r.payload := by
      unfold encodeRecord
      rw [if_pos hsmall]
    obtain ⟨f1, f2, f3, f4⟩ :=
      packedWord_fields r.tag r.level r.payload.length ht hl (by omega)
    have hparse : RecordHeader.parse (encodeRecord r ++ rest) =
        .ok (⟨r.tag, r.level, r.payload.length⟩, 4) := by
      rw [henc]
      unfold RecordHeader.parse
      rw [List.append_assoc]
      rw [if_neg (by simp [u32le] <;> omega), readU32le_u32le]
      rw [Nat.mod_eq_of_lt f4]
      simp only [f1, f2, f3]
      rw [if_neg (by simp only [beq_iff_eq]; omega)]
    have hEL : (encodeRecord r).length = 4 + r.payload.length := by
      rw [encodeRecord_length, if_pos hsmall]
    rw [hparse]
    simp only
    rw [if_neg (by simp <;> omega)]
    have hdrop2 : (pre ++ (encodeRecord r ++ rest)).drop (pre.length + 4) =
        r.payload ++ rest := by
      have : pre ++ (encodeRecord r ++ rest) =
          (pre ++ u32le w) ++ (r.payload ++ rest) := by
        rw [henc]; simp [List.append_assoc]
      rw [this, show pre.length + 4 = (pre ++ u32le w).length by simp [u32le],
          List.drop_left]
    rw [hdrop2]
    simp only [List.take_left]
    rw [henc]
    simp [RecSpec.toRecord, u32le]
    omega
  · -- 8-byte header with extended size
    set w := r.tag + 1024 * r.level + 1048576 * 4095 with hw
    have henc : encodeRecord r = u32le w ++ (u32le r.payload.length ++ r.payload) := by
      unfold encodeRecord
      rw [if_neg hsmall, List.append_assoc]
    obtain ⟨f1, f2, f3, f4⟩ := packedWord_fields r.tag r.level 4095 ht hl (by omega)
    have hparse : RecordHeader.parse (encodeRecord r ++ rest) =
        .ok (⟨r.tag, r.level, r.payload.length⟩, 8) := by
      rw [henc]
      unfold RecordHeader.parse
      rw [List.append_assoc]
      rw [if_neg (by simp [u32le] <;> omega), readU32le_u32le]
      rw [Nat.mod_eq_of_lt f4]
      simp only [f1, f2, f3]
      rw [if_pos (by simp only [beq_iff_eq])]
      rw [if_neg (by simp [u32le] <;> omega)]
      rw [List.append_assoc, show (4 : Nat) = (u32le w).length + 0 by simp [u32le],
          readU32le_shift, readU32le_u32le, Nat.mod_eq_of_lt hlen32]
    have hEL : (encodeRecord r).length = 8 + r.payload.length := by
      rw [encodeRecord_length, if_neg hsmall]
    rw [hparse]
    simp only
    rw [if_neg (by simp <;> omega)]
    have hdrop2 : (pre ++ (encodeRecord r ++ rest)).drop (pre.length + 8) =
        r.payload ++ rest := by
      have : pre ++ (encodeRecord r ++ rest) =
          (pre ++ (u32le w ++ u32le r.payload.length)) ++ (r.payload ++ rest) := by
        rw [henc]; simp [List.append_assoc]
      rw [this, show pre.length + 8 = (pre ++ (u32le w ++ u32le r.payload.length)).length
            by simp [u32le], List.drop_left]
    rw [hdrop2]
    simp only [List.take_left]
    rw [henc]
    simp [RecSpec.toRecord, u32le]
    omega

theorem encodeRecords_cons (r : RecSpec) (rs : List RecSpec) :
    encodeRecords (r :: rs) = encodeRecord r ++ encodeRecords rs := by
  simp [encodeRecords]

theorem readRecordsGo_encode (rs : List RecSpec) :
    ∀ (pre : Bytes) (fuel : Nat), (∀ r ∈ rs, r.WF) → rs.length < fuel →
    readRecordsGo (pre ++ encodeRecords rs) fuel pre.length =
      .ok (some (rs.map RecSpec.toRecord)) := by
  induction rs with
  | nil =>
    intro pre fuel _ hfuel
    match fuel, hfuel with
    | f + 1, _ =>
      have hend : pre ++ encodeRecords [] = pre := by simp [encodeRecords]
      rw [hend]
      simp only [readRecordsGo]
      rw [show nextRecord pre pre.length = .ok none by
        unfold nextRecord; rw [if_pos (by omega)]]
      rfl
  | cons r rs ih =>
    intro pre fuel hwf hfuel
    match fuel, hfuel with
    | f + 1, hf =>
      have hnext := nextRecord_encode pre (encodeRecords rs) r (hwf r (by simp))
      rw [encodeRecords_cons]
      simp only [readRecordsGo]
      simp only [hnext]
      have harr : pre ++ (encodeRecord r ++ encodeRecords rs) =
          (pre ++ encodeRecord r) ++ encodeRecords rs := by
        simp [List.append_assoc]
      have hpos2 : pre.length + (encodeRecord r).length =
          (pre ++ encodeRecord r).length := by simp
      rw [harr, hpos2,
          ih (pre ++ encodeRecord r) f (fun x hx => hwf x (by simp [hx])) (by
            simp only [List.length_cons] at hf; omega)]
      rfl

theorem length_le_encodeRecords (rs : List RecSpec) :
    rs.length ≤ (encodeRecords rs).length := by
  induction rs with
  | nil => simp [encodeRecords]
  | cons r rs ih =>
    rw [encodeRecords_cons]
    have := encodeRecord_length_ge r
    simp only [List.length_cons, List.length_append]
    omega

/-- Anatomy of a successful next_record step. -/
theorem nextRecord_ok_some {data : Bytes} {pos : Nat} {r : Record} {p2 : Nat}
    (h : nextRecord data pos = .ok (some (r, p2))) :
    ∃ hd hs, RecordHeader.parse (data.drop pos) = .ok (hd, hs) ∧
      r.tagid = hd.tagid ∧ r.level = hd.level ∧ r.size = hd.size ∧
      r.tagname = formatTagname hd.tagid ∧
      r.payload = (data.drop (pos + hs)).take hd.size ∧
      p2 = pos + hs + hd.size ∧ pos + hs + hd.size ≤ data.length ∧
      pos < data.length := by
  unfold nextRecord at h
  by_cases hend : pos ≥ data.length
  · rw [if_pos hend] at h
    cases h
  · rw [if_neg hend] at h
    cases hp : RecordHeader.parse (data.drop pos) with
    | error e =>
      rw [hp] at h
      cases h
    | ok pair =>
      obtain ⟨hd, hs⟩ := pair
      rw [hp] at h
      simp only at h
      by_cases hover : pos + hs + hd.size > data.length
      · rw [if_pos hover] at h
        cases h
      · rw [if_neg hover] at h
        simp only [Except.ok.injEq, Option.some.injEq, Prod.mk.injEq] at h
        obtain ⟨hr, hp2⟩ := h
        subst hr
        subst hp2
        exact ⟨hd, hs, rfl, rfl, rfl, rfl, rfl, rfl, rfl, by omega, by omega⟩

/-! ### C3: record iterator totality and strictness -/

/-- C3: on a buffer formed by concatenating well-formed records the
iterator yields exactly those records in order and stops cleanly at the
exact buffer end; each successful step advances the cursor by
header_size + size; past the end it reports no-more; and whenever the
header or the declared payload would extend past the buffer end it fails
with a ParseError. -/
theorem record_iterator_contract :
    (∀ rs : List RecSpec, (∀ r ∈ rs, r.WF) →
      readRecords (encodeRecords rs) = .ok (some (rs.map RecSpec.toRecord))) ∧
    (∀ (data : Bytes) (pos : Nat) (r : Record) (p2 : Nat),
      nextRecord data pos = .ok (some (r, p2)) →
      ∃ hs, RecordHeader.parse (data.drop pos) = .ok (⟨r.tagid, r.level, r.size⟩, hs) ∧
        p2 = pos + hs + r.size) ∧
    (∀ (data : Bytes) (pos : Nat), data.length ≤ pos → nextRecord data pos = .ok none) ∧
    (∀ (data : Bytes) (pos : Nat), pos < data.length →
      headerPastEnd data pos ∨ payloadPastEnd data pos →
      ∃ msg, nextRecord data pos = .error (.parseError msg)) := by
  refine ⟨?_, ?_, ?_, ?_⟩
  · intro rs hwf
    have := readRecordsGo_encode rs [] ((encodeRecords rs).length + 1) hwf
      (by have := length_le_encodeRecords rs; omega)
    rw [List.nil_append] at this
    exact this
  · intro data pos r p2 h
    obtain ⟨hd, hs, hp, h1, h2, h3, -, -, hp2, -, -⟩ := nextRecord_ok_some h
    refine ⟨hs, ?_, by rw [h3]; exact hp2⟩
    rw [h1, h2, h3]
    exact hp
  · intro data pos hle
    unfold nextRecord
    rw [if_pos (by omega)]
  · intro data pos hpos hbad
    rcases hbad with hA | hB
    · rcases hA with hshort | ⟨w, hw, hsz, hlen8⟩
      · refine ⟨"Record header must be at least 4 bytes", ?_⟩
        unfold nextRecord
        rw [if_neg (by omega)]
        rw [show RecordHeader.parse (data.drop pos) =
            .error (.parseError "Record header must be at least 4 bytes") by
          unfold RecordHeader.parse
          rw [if_pos (by rw [List.length_drop]; omega)]]
      · refine ⟨"Extended record size requires 8 bytes", ?_⟩
        have h4 : 4 ≤ (data.drop pos).length := by
          have := readU32le_some_le hw
          omega
        unfold nextRecord
        rw [if_neg (by omega)]
        rw [show RecordHeader.parse (data.drop pos) =
            .error (.parseError "Extended record size requires 8 bytes") by
          unfold RecordHeader.parse
          rw [if_neg (by omega)]
          simp only [hw]
          rw [if_pos (by simp only [beq_iff_eq]; omega)]
          rw [if_pos (by rw [List.length_drop]; omega)]]
    · obtain ⟨hd, hs, hparse, hover⟩ := hB
      refine ⟨"Record payload out of bounds: pos=" ++ toString pos ++
        ", header_size=" ++ toString hs ++ ", size=" ++ toString hd.size, ?_⟩
      unfold nextRecord
      rw [if_neg (by omega), hparse]
      simp only
      rw [if_pos (by omega)]

/-- C3 witness: the totality part applied to two concrete records. -/
theorem record_iterator_contract_witness :
    readRecords (encodeRecords [⟨19, 0, [1, 2, 3]⟩, ⟨7, 2, []⟩]) =
      .ok (some ([⟨19, 0, [1, 2, 3]⟩, ⟨7, 2, []⟩].map RecSpec.toRecord)) :=
  record_iterator_contract.1 _ (by decide)

/-! ### C7: extended size escape -/

/-- C7: when the 12-bit size field is 4095 the parser demands 8 bytes
(failing with a ParseError otherwise), reads the 4-byte little-endian
extended size, discards the 12-bit value, and reports a header length of
8, so the iterator advances by 8 + extended_size; when the field is below
4095 the header is 4 bytes and the iterator advances by 4 + size. -/
theorem extended_size_contract :
    (∀ (data : Bytes) (w : Nat), readU32le data 0 = some w →
      w / 1048576 % 4096 = 4095 →
      (data.length < 8 →
        RecordHeader.parse data =
          .error (.parseError "Extended record size requires 8 bytes")) ∧
      (∀ ext, readU32le data 4 = some ext →
        RecordHeader.parse data = .ok (⟨w % 1024, w / 1024 % 1024, ext⟩, 8))) ∧
    (∀ (data : Bytes) (w : Nat), readU32le data 0 = some w →
      w / 1048576 % 4096 < 4095 →
      RecordHeader.parse data =
        .ok (⟨w % 1024, w / 1024 % 1024, w / 1048576 % 4096⟩, 4)) ∧
    (∀ (data : Bytes) (pos : Nat) (r : Record) (p2 : Nat)
      (hd : RecordHeader) (hs : Nat),
      nextRecord data pos = .ok (some (r, p2)) →
      RecordHeader.parse (data.drop pos) = .ok (hd, hs) →
      p2 = pos + hs + hd.size) := by
  refine ⟨?_, ?_, ?_⟩
  · intro data w hw hsz
    have h4 : 4 ≤ data.length := by have := readU32le_some_le hw; omega
    constructor
    · intro h8
      unfold RecordHeader.parse
      rw [if_neg (by omega)]
      simp only [hw]
      rw [if_pos (by simp only [beq_iff_eq]; omega)]
      rw [if_pos h8]
    · intro ext hext
      have h8 : 8 ≤ data.length := by have := readU32le_some_le hext; omega
      unfold RecordHeader.parse
      rw [if_neg (by omega)]
      simp only [hw]
      rw [if_pos (by simp only [beq_iff_eq]; omega)]
      rw [if_neg (by omega)]
      simp only [hext]
  · intro data w hw hsz
    have h4 : 4 ≤ data.length := by have := readU32le_some_le hw; omega
    unfold RecordHeader.parse
    rw [if_neg (by omega)]
    simp only [hw]
    rw [if_neg (by simp only [beq_iff_eq]; omega)]
  · intro data pos r p2 hd hs h hparse
    obtain ⟨hd2, hs2, hp2, -, -, -, -, -, hadv, -, -⟩ := nextRecord_ok_some h
    rw [hparse] at hp2
    simp only [Except.ok.injEq, Prod.mk.injEq] at hp2
    obtain ⟨h1, h2⟩ := hp2
    rw [hadv, h1, h2]

/-- C7 witness: applied to a concrete extended-size header (12-bit field
4095, extended size 0), a concrete plain header, and a concrete
next_record step. -/
theorem extended_size_contract_witness :
    RecordHeader.parse (u32le (3 + 1048576 * 4095) ++ u32le 0) = .ok (⟨3, 0, 0⟩, 8) ∧
    RecordHeader.parse [0, 0, 16, 0] = .ok (⟨0, 0, 1⟩, 4) ∧
    RecordHeader.parse [0, 0, 240, 255] =
      .error (.parseError "Extended record size requires 8 bytes") := by
  refine ⟨?_, ?_, ?_⟩
  · have h := (extended_size_contract.1 (u32le (3 + 1048576 * 4095) ++ u32le 0)
      4293918723 (by decide) (by decide)).2 0 (by decide)
    simpa using h
  · have h := extended_size_contract.2.1 [0, 0, 16, 0] 1048576 (by decide) (by decide)
    simpa using h
  · have h := (extended_size_contract.1 [0, 0, 240, 255]
      4293918720 (by decide) (by decide)).1 (by decide)
    simpa using h

/-! ### C9: DocInfo dispatch -/

theorem parseFaceName_eq (p : Bytes) :
    parseFaceName p =
      .ok (String.mk (trimEndNul (utf16Lossy ((collectPairs p p.length 0).getD [])))) := by
  unfold parseFaceName
  split_ifs with h0
  · have hnil : p = [] := List.eq_nil_of_length_eq_zero (by simpa using h0)
    subst hnil
    rfl
  · cases hcp : collectPairs p p.length 0 with
    | some units => simp [hcp]
    | none => simp [hcp]; rfl

theorem ordinal_append {α : Type} (idOf : α → Nat) (d : α) (l : List α) (x : α)
    (hord : ∀ i, i < l.length → i < 4294967296 → idOf (l.getD i d) = i)
    (hx : idOf x = l.length % 4294967296) :
    ∀ i, i < (l ++ [x]).length → i < 4294967296 → idOf ((l ++ [x]).getD i d) = i := by
  intro i hi hlt
  simp only [List.length_append, List.length_cons, List.length_nil] at hi
  by_cases hc : i < l.length
  · rw [List.getD_append _ _ _ _ hc]
    exact hord i hc hlt
  · have heq : i = l.length := by omega
    subst heq
    rw [List.getD_append_right _ _ _ _ (by omega), Nat.sub_self, List.getD_cons_zero,
        hx, Nat.mod_eq_of_lt hlt]

theorem docinfoStep_pres (doc doc2 : Document) (r : Record)
    (h : docinfoStep doc r = .ok doc2) (hord : tablesOrdinal doc) :
    tablesOrdinal doc2 := by
  obtain ⟨o1, o2, o3, o4⟩ := hord
  unfold docinfoStep at h
  split at h
  · -- tag 19: fonts only
    rw [parseFaceName_eq] at h
    simp only [Except.ok.injEq] at h
    subst h
    exact ⟨o1, o2, o3, o4⟩
  · -- tag 21: char shapes
    simp only [parseCharShape, Except.ok.injEq] at h
    subst h
    exact ⟨ordinal_append CharShape.id _ _ _ o1 rfl, o2, o3, o4⟩
  · -- tag 25: para shapes
    simp only [parseParaShape, Except.ok.injEq] at h
    subst h
    exact ⟨o1, ordinal_append ParaShape.id _ _ _ o2 rfl, o3, o4⟩
  · -- tag 26: styles
    simp only [parseStyle, Except.ok.injEq] at h
    subst h
    exact ⟨o1, o2, ordinal_append Style.id _ _ _ o3 rfl, o4⟩
  · -- tag 20: border fills
    simp only [parseBorderFill, Except.ok.injEq] at h
    subst h
    exact ⟨o1, o2, o3, ordinal_append BorderFill.id _ _ _ o4 rfl⟩
  · -- other tags
    simp only [Except.ok.injEq] at h
    subst h
    exact ⟨o1, o2, o3, o4⟩

theorem foldlM_docinfo_pres (rs : List Record) :
    ∀ (doc doc2 : Document), rs.foldlM docinfoStep doc = .ok doc2 →
    tablesOrdinal doc → tablesOrdinal doc2 := by
  induction rs with
  | nil =>
    intro doc doc2 h hord
    simp only [List.foldlM_nil, pure, Except.pure, Except.ok.injEq] at h
    subst h
    exact hord
  | cons r rs ih =>
    intro doc doc2 h hord
    rw [List.foldlM_cons] at h
    cases hstep : docinfoStep doc r with
    | error e =>
      rw [hstep] at h
      simp only [bind, Except.bind] at h
      cases h
    | ok d =>
      rw [hstep] at h
      simp only [bind, Except.bind] at h
      exact ih d doc2 h (docinfoStep_pres doc d r hstep hord)

/-- C9: a FACE_NAME (tag 19) record appends its payload, decoded as
UTF-16LE with trailing NULs trimmed, to the fonts table; records with any
tag outside 19, 20, 21, 25, 26 are ignored without error; entities keep
ids equal to their 0-based ordinal position in their tables; and the
concrete FACE_NAME record of size 8 with payload UTF-16LE AB (padded with
two NUL code units) yields fonts equal to [AB]. -/
theorem docinfo_dispatch_contract :
    (∀ (doc : Document) (r : Record), r.tagid = 19 →
      docinfoStep doc r = .ok { doc with fonts := doc.fonts ++
        [String.mk (trimEndNul (utf16Lossy
          ((collectPairs r.payload r.payload.length 0).getD [])))] }) ∧
    (∀ (doc : Document) (r : Record),
      r.tagid ∉ ([19, 20, 21, 25, 26] : List Nat) → docinfoStep doc r = .ok doc) ∧
    (∀ (data : Bytes) (doc0 doc1 : Document),
      parseDocinfo data doc0 = .ok (some doc1) →
      tablesOrdinal doc0 → tablesOrdinal doc1) ∧
    ((parseDocinfo (encodeRecords [⟨19, 0, [0x41, 0, 0x42, 0, 0, 0, 0, 0]⟩])
        Document.new).map (fun o => o.map Document.fonts) = .ok (some [["AB"]].flatten)) := by
  refine ⟨?_, ?_, ?_, by decide⟩
  · intro doc r htag
    unfold docinfoStep
    rw [htag]
    rw [parseFaceName_eq]
  · intro doc r htag
    unfold docinfoStep
    split <;> first | rfl | (exfalso; simp_all)
  · intro data doc0 doc1 h hord
    unfold parseDocinfo at h
    cases hrr : readRecords data with
    | error e =>
      rw [hrr] at h
      cases h
    | ok o =>
      rw [hrr] at h
      cases o with
      | none => simp only at h; cases h
      | some rs =>
        simp only at h
        cases hf : rs.foldlM docinfoStep doc0 with
        | error e =>
          rw [hf] at h
          cases h
        | ok d =>
          rw [hf] at h
          simp only [Except.ok.injEq, Option.some.injEq] at h
          subst h
          exact foldlM_docinfo_pres rs doc0 _ hf hord

/-- C9 witness: the FACE_NAME dispatch applied at a concrete record. -/
theorem docinfo_dispatch_contract_witness :
    (docinfoStep Document.new ⟨19, "HWPTAG_FACE_NAME", 0, 8,
      [0x41, 0, 0x42, 0, 0, 0, 0, 0]⟩).map Document.fonts = .ok ["AB"] := by
  rw [docinfo_dispatch_contract.1 Document.new _ rfl]
  decide

/-! ### C1: get_stream -/

/-- C1 as stated is wrong about truncation: on c1Buf the stream "S" has
stream_size 5 but get_stream returns the whole 512-byte sector of its FAT
chain, not the 5-byte truncation the claim demands. -/
theorem get_stream_no_truncation :
    Ole2.parse c1Buf = .ok c1Ole ∧
    c1Ole.listStreams 8 = .ok (some [("S", c1Entry)]) ∧
    c1Entry.streamSize = 5 ∧
    c1Ole.getStream 8 "S" = .ok (some (List.range 128)) ∧
    (List.range 128).length = 128 ∧
    c1Ole.getStream 8 "S" ≠
      .ok (some ((List.range 128).take c1Entry.streamSize)) := by
  refine ⟨by decide, by decide, by decide, by decide, by decide, by decide⟩

/-- C1 amended: whenever the directory traversal completes, get_stream
returns the whole FAT chain (full sectors, no truncation to stream_size)
of the first entry whose accumulated path equals the requested name, and
fails with NotFound exactly when no entry with that path exists. -/
theorem get_stream_contract (o : Ole2) (fuel : Nat) (name : String)
    (streams : List (String × DirEntry))
    (h : o.listStreams fuel = .ok (some streams)) :
    ((∃ p ∈ streams, p.1 = name) →
      ∃ e, (name, e) ∈ streams ∧
        o.getStream fuel name =
          .ok (some (readFatChainGo o.header.fat o.header.sectorSize o.data
            e.startSector USIZE_MAX))) ∧
    ((¬ ∃ p ∈ streams, p.1 = name) →
      o.getStream fuel name =
        .error (.notFound ("Stream \x27" ++ name ++ "\x27 not found"))) := by
  constructor
  · rintro ⟨p, hp, hname⟩
    have hsome : (streams.find? (fun q => q.1 == name)).isSome := by
      rw [List.find?_isSome]
      exact ⟨p, hp, by simp [hname]⟩
    obtain ⟨⟨n2, e⟩, hfind⟩ := Option.isSome_iff_exists.mp hsome
    have hmem := List.mem_of_find?_eq_some hfind
    have hpred : n2 = name := by
      have := List.find?_some hfind
      simpa using this
    subst hpred
    refine ⟨e, hmem, ?_⟩
    unfold Ole2.getStream
    rw [h]
    simp only
    rw [hfind]
  · intro hnone
    have hfind : streams.find? (fun q => q.1 == name) = none := by
      rw [List.find?_eq_none]
      intro x hx
      simp only [beq_iff_eq]
      intro heq
      exact hnone ⟨x, hx, heq⟩
    unfold Ole2.getStream
    rw [h]
    simp only
    rw [hfind]

/-- C1 amended witness: the contract applied to the concrete container
c1Buf, on the present stream "S" and on a missing name. -/
theorem get_stream_contract_witness :
    (∃ e, ("S", e) ∈ [("S", c1Entry)] ∧
      c1Ole.getStream 8 "S" =
        .ok (some (readFatChainGo c1Ole.header.fat c1Ole.header.sectorSize
          c1Ole.data e.startSector USIZE_MAX))) ∧
    c1Ole.getStream 8 "DocInfo" =
      .error (.notFound ("Stream \x27DocInfo\x27 not found")) :=
  ⟨(get_stream_contract c1Ole 8 "S" [("S", c1Entry)] (by decide)).1
      ⟨("S", c1Entry), by decide, rfl⟩,
   (get_stream_contract c1Ole 8 "DocInfo" [("S", c1Entry)] (by decide)).2
      (by rintro ⟨p, hp, hname⟩; simp at hp; subst hp; simp at hname)⟩

/-! ### Fuel adequacy of the record loop (towards C10) -/

theorem parse_headerSize {data : Bytes} {hd : RecordHeader} {hs : Nat}
    (h : RecordHeader.parse data = .ok (hd, hs)) : hs = 4 ∨ hs = 8 := by
  unfold RecordHeader.parse at h
  by_cases h1 : data.length < 4
  · rw [if_pos h1] at h
    cases h
  · rw [if_neg h1] at h
    cases hw : readU32le data 0 with
    | none => rw [hw] at h; cases h
    | some w =>
      rw [hw] at h
      simp only at h
      by_cases h2 : (w / 1048576 % 4096 == 4095) = true
      · rw [if_pos h2] at h
        by_cases h3 : data.length < 8
        · rw [if_pos h3] at h
          cases h
        · rw [if_neg h3] at h
          cases hx : readU32le data 4 with
          | none => rw [hx] at h; cases h
          | some ext =>
            rw [hx] at h
            simp only [Except.ok.injEq, Prod.mk.injEq] at h
            right
            exact h.2.symm
      · rw [if_neg h2] at h
        simp only [Except.ok.injEq, Prod.mk.injEq] at h
        left
        exact h.2.symm

theorem readRecordsGo_adequate : ∀ (fuel : Nat) (data : Bytes) (pos : Nat),
    data.length - pos < fuel → readRecordsGo data fuel pos ≠ .ok none := by
  intro fuel
  induction fuel with
  | zero => intro data pos h; omega
  | succ f ih =>
    intro data pos h
    simp only [readRecordsGo]
    cases hnr : nextRecord data pos with
    | error e => simp
    | ok o =>
      cases o with
      | none => simp
      | some pr =>
        obtain ⟨r, p2⟩ := pr
        obtain ⟨hd, hs, hparse, -, -, -, -, -, hp2, hle, hlt⟩ := nextRecord_ok_some hnr
        have hs48 := parse_headerSize hparse
        cases hrec : readRecordsGo data f p2 with
        | error e => simp [hrec]
        | ok o2 =>
          cases o2 with
          | none => exact absurd hrec (ih data p2 (by omega))
          | some rs => simp [hrec]

/-- readRecords never reports fuel exhaustion: data.length + 1 iterations
always suffice because each record consumes at least 4 bytes. -/
theorem readRecords_adequate (data : Bytes) : readRecords data ≠ .ok none :=
  readRecordsGo_adequate (data.length + 1) data 0 (by omega)

/-! ### C10: parse_hwp with and without DocInfo -/

/-- C10 as universally stated is wrong: c10badBuf is a valid OLE2
container holding FileHeader and no DocInfo, yet parse_hwp fails, because
its BodyText/Section0 stream starts with FF FF FF FF FF FF FF FF — an
extended-size record header whose declared payload exceeds the stream. -/
theorem parse_hwp_bodytext_failure :
    Ole2.parse c10badBuf = .ok c10badOle ∧
    isOkSome (c10badOle.getStream 8 "FileHeader") = true ∧
    isNotFoundErr (c10badOle.getStream 8 "DocInfo") = true ∧
    isParseErr (parseHwp c10badBuf 8 3) = true := by
  refine ⟨by decide, by decide, by decide, by decide⟩

theorem parseBodySections_ok (o : Ole2) (fuel : Nat) :
    ∀ (sfuel idx : Nat) (doc : Document),
    (∀ j, j < sfuel → ∀ bd, o.getStream fuel (sectionName (idx + j)) = .ok (some bd) →
      ∃ rs, readRecords bd = .ok (some rs)) →
    (∀ j, j < sfuel → o.getStream fuel (sectionName (idx + j)) ≠ .ok none) →
    (∃ k, k < sfuel ∧ ∃ e, o.getStream fuel (sectionName (idx + k)) = .error e) →
    ∃ doc2, parseBodySections o fuel sfuel idx doc = .ok (some doc2) ∧
      doc2.fonts = doc.fonts ∧ doc2.styles = doc.styles ∧
      doc2.charShapes = doc.charShapes ∧ doc2.paraShapes = doc.paraShapes ∧
      doc2.borderFills = doc.borderFills := by
  intro sfuel
  induction sfuel with
  | zero =>
    rintro idx doc - - ⟨k, hk, -⟩
    omega
  | succ sf ih =>
    intro idx doc hwfRec hnofuel hterm
    simp only [parseBodySections]
    cases hgs : o.getStream fuel (sectionName idx) with
    | error e =>
      exact ⟨doc, rfl, rfl, rfl, rfl, rfl, rfl⟩
    | ok ob =>
      cases ob with
      | none =>
        have := hnofuel 0 (by omega)
        rw [Nat.add_zero] at this
        exact absurd hgs this
      | some bd =>
        obtain ⟨rs, hrr⟩ := hwfRec 0 (by omega) bd (by rwa [Nat.add_zero])
        have hbt : parseBodytext bd = .ok (some Section.new) := by
          unfold parseBodytext
          rw [hrr]
        simp only
        rw [hbt]
        simp only
        have hterm2 : ∃ k, k < sf ∧
            ∃ e, o.getStream fuel (sectionName (idx + 1 + k)) = .error e := by
          obtain ⟨k, hk, e, he⟩ := hterm
          cases k with
          | zero =>
            rw [Nat.add_zero] at he
            rw [he] at hgs
            cases hgs
          | succ k2 =>
            exact ⟨k2, by omega, e, by rw [show idx + 1 + k2 = idx + (k2 + 1) by omega]; exact he⟩
        obtain ⟨doc2, hps, hf, hst, hcs, hpsn, hbf⟩ :=
          ih (idx + 1) { doc with sections := doc.sections ++ [Section.new] }
            (fun j hj => by
              have := hwfRec (j + 1) (by omega)
              rwa [show idx + (j + 1) = idx + 1 + j by omega] at this)
            (fun j hj => by
              have := hnofuel (j + 1) (by omega)
              rwa [show idx + (j + 1) = idx + 1 + j by omega] at this)
            hterm2
        exact ⟨doc2, hps, hf, hst, hcs, hpsn, hbf⟩

/-- C10 amended: if the OLE2 container parses and the directory traversal
completes, parse_hwp fails whenever the FileHeader stream lookup fails;
and when FileHeader is present, DocInfo is absent (its lookup errors),
every BodyText section stream that is present parses as a record stream,
and some section index below the loop bound is missing, then parse_hwp
succeeds with a document whose fonts, styles, char-shape, para-shape and
border-fill tables are all empty. -/
theorem parse_hwp_docinfo_optional (data : Bytes) (fuel sfuel : Nat) (o : Ole2)
    (ho : Ole2.parse data = .ok o) :
    (∀ e, o.getStream fuel "FileHeader" = .error e →
      parseHwp data fuel sfuel = .error e) ∧
    (∀ fh eDI, o.getStream fuel "FileHeader" = .ok (some fh) →
      o.getStream fuel "DocInfo" = .error eDI →
      (∀ j, j < sfuel → ∀ bd, o.getStream fuel (sectionName j) = .ok (some bd) →
        ∃ rs, readRecords bd = .ok (some rs)) →
      (∀ j, j < sfuel → o.getStream fuel (sectionName j) ≠ .ok none) →
      (∃ k, k < sfuel ∧ ∃ e, o.getStream fuel (sectionName k) = .error e) →
      ∃ doc, parseHwp data fuel sfuel = .ok (some doc) ∧
        doc.fonts = [] ∧ doc.styles = [] ∧ doc.charShapes = [] ∧
        doc.paraShapes = [] ∧ doc.borderFills = []) := by
  constructor
  · intro e he
    unfold parseHwp
    rw [ho]
    simp only
    rw [he]
  · intro fh eDI hfh hdi hwfRec hnofuel hterm
    have hloop := parseBodySections_ok o fuel sfuel 0 Document.new
      (fun j hj => by rw [Nat.zero_add]; exact hwfRec j hj)
      (fun j hj => by rw [Nat.zero_add]; exact hnofuel j hj)
      (by obtain ⟨k, hk, e, he⟩ := hterm; exact ⟨k, hk, e, by rwa [Nat.zero_add]⟩)
    obtain ⟨doc2, hps, hf, hst, hcs, hpsn, hbf⟩ := hloop
    refine ⟨doc2, ?_, hf, hst, hcs, hpsn, hbf⟩
    unfold parseHwp
    rw [ho]
    simp only
    rw [hfh]
    simp only
    rw [hdi]
    exact hps

/-- C10 amended witness: applied to c10goodBuf, a container holding only
a FileHeader stream (no DocInfo, no BodyText), with loop bound 1. -/
theorem parse_hwp_docinfo_optional_witness :
    ∃ doc, parseHwp c10goodBuf 8 1 = .ok (some doc) ∧
      doc.fonts = [] ∧ doc.styles = [] ∧ doc.charShapes = [] ∧
      doc.paraShapes = [] ∧ doc.borderFills = [] := by
  have hs0 : c10goodOle.getStream 8 (sectionName 0) =
      .error (.notFound ("Stream \x27BodyText/Section0\x27 not found")) := by decide
  refine (parse_hwp_docinfo_optional c10goodBuf 8 1 c10goodOle (by decide)).2
    [] (.notFound ("Stream \x27DocInfo\x27 not found"))
    (by decide) (by decide) ?_ ?_ ⟨0, by omega, _, hs0⟩
  · intro j hj bd hgs
    have hj0 : j = 0 := by omega
    subst hj0
    rw [hs0] at hgs
    cases hgs
  · intro j hj
    have hj0 : j = 0 := by omega
    subst hj0
    rw [hs0]
    intro hc
    cases hc

/-! ### ZIP layout lemmas (towards C5 and C6) -/

theorem localHeader_length (nm : String) (d : Bytes) :
    (localHeader nm d).length = 30 + (utf8Bytes nm).length + d.length := by
  simp [localHeader, u16le, u32le]
  omega

theorem centralHeader_length (nm : String) (d : Bytes) (off : Nat) :
    (centralHeader nm d off).length = 46 + (utf8Bytes nm).length := by
  simp [centralHeader, u16le, u32le]
  omega

theorem localsJoin_cons (e : String × Bytes) (es : List (String × Bytes)) :
    localsJoin (e :: es) = localHeader e.1 e.2 ++ localsJoin es := by
  simp [localsJoin]

theorem zipFold_eq : ∀ (entries : List (String × Bytes)) (out central : Bytes),
    entries.foldl
      (fun acc e => (acc.1 ++ localHeader e.1 e.2,
        acc.2 ++ centralHeader e.1 e.2 acc.1.length)) (out, central) =
    (out ++ localsJoin entries, central ++ centralsJoin out.length entries) := by
  intro entries
  induction entries with
  | nil => intro out central; simp [localsJoin, centralsJoin]
  | cons e es ih =>
    intro out central
    simp only [List.foldl_cons]
    rw [ih]
    simp only [centralsJoin, localsJoin_cons]
    simp [List.append_assoc, List.length_append]

theorem zipBytes_eq (entries : List (String × Bytes)) :
    zipBytes entries =
      localsJoin entries ++ (centralsJoin 0 entries ++
        eocdRecord entries.length (centralsJoin 0 entries).length
          (localsJoin entries).length) := by
  unfold zipBytes zipFold
  rw [zipFold_eq]
  simp [List.append_assoc]

theorem localsJoin_at :
    ∀ (entries : List (String × Bytes)) (tail : Bytes) (i : Nat)
      (hi : i < entries.length),
    (localsJoin entries ++ tail).drop (localPos entries i) =
      localHeader (entries.get ⟨i, hi⟩).1 (entries.get ⟨i, hi⟩).2 ++
        (localsJoin (entries.drop (i + 1)) ++ tail) := by
  intro entries
  induction entries with
  | nil => intro tail i hi; simp at hi
  | cons e es ih =>
    intro tail i hi
    cases i with
    | zero =>
      simp only [localPos, List.drop_zero, localsJoin_cons, List.get]
      simp [List.append_assoc]
    | succ j =>
      have hj : j < es.length := by simpa using hi
      simp only [localPos, localsJoin_cons, List.get, List.drop_succ_cons]
      rw [List.append_assoc, List.drop_append]
      exact ih (tail) j hj

theorem readU16le_peel4 (w : Nat) (b : Bytes) (k : Nat) :
    readU16le (u32le w ++ b) (4 + k) = readU16le b k := by
  rw [show (4 : Nat) + k = (u32le w).length + k by simp [u32le], readU16le_shift]

theorem readU16le_peel2 (v : Nat) (b : Bytes) (k : Nat) :
    readU16le (u16le v ++ b) (2 + k) = readU16le b k := by
  rw [show (2 : Nat) + k = (u16le v).length + k by simp [u16le], readU16le_shift]

theorem readU32le_peel4 (w : Nat) (b : Bytes) (k : Nat) :
    readU32le (u32le w ++ b) (4 + k) = readU32le b k := by
  rw [show (4 : Nat) + k = (u32le w).length + k by simp [u32le], readU32le_shift]

theorem readU32le_peel2 (v : Nat) (b : Bytes) (k : Nat) :
    readU32le (u16le v ++ b) (2 + k) = readU32le b k := by
  rw [show (2 : Nat) + k = (u16le v).length + k by simp [u16le], readU32le_shift]

theorem localHeader_assoc (nm : String) (d : Bytes) (rest : Bytes) :
    localHeader nm d ++ rest =
      u32le 0x04034B50 ++ (u16le 20 ++ (u16le 0 ++ (u16le 0 ++ (u16le 0 ++
      (u16le 0 ++ (u32le (crc32 d) ++ (u32le d.length ++ (u32le d.length ++
      (u16le (utf8Bytes nm).length ++ (u16le 0 ++
      (utf8Bytes nm ++ (d ++ rest)))))))))))) := by
  simp [localHeader, List.append_assoc]

theorem centralHeader_assoc (nm : String) (d : Bytes) (off : Nat) (rest : Bytes) :
    centralHeader nm d off ++ rest =
      u32le 0x02014B50 ++ (u16le 20 ++ (u16le 20 ++ (u16le 0 ++ (u16le 0 ++
      (u16le 0 ++ (u16le 0 ++ (u32le (crc32 d) ++ (u32le d.length ++
      (u32le d.length ++ (u16le (utf8Bytes nm).length ++ (u16le 0 ++ (u16le 0 ++
      (u16le 0 ++ (u16le 0 ++ (u32le 0 ++ (u32le off ++
      (utf8Bytes nm ++ rest))))))))))))))))) := by
  simp [centralHeader, List.append_assoc]

theorem eocd_assoc (n csize coffset : Nat) (rest : Bytes) :
    eocdRecord n csize coffset ++ rest =
      u32le 0x06054B50 ++ (u16le 0 ++ (u16le 0 ++ (u16le n ++ (u16le n ++
      (u32le csize ++ (u32le coffset ++ (u16le 0 ++ rest))))))) := by
  simp [eocdRecord, List.append_assoc]

/-- The signature field of a local header in place. -/
theorem localSig_read (nm : String) (d : Bytes) (rest : Bytes) :
    readU32le (localHeader nm d ++ rest) 0 = some 0x04034B50 := by
  rw [localHeader_assoc, readU32le_u32le]

/-- The method field (offset 8) of a local header in place: stored. -/
theorem localMethod_read (nm : String) (d : Bytes) (rest : Bytes) :
    readU16le (localHeader nm d ++ rest) 8 = some 0 := by
  rw [localHeader_assoc,
      show (8 : Nat) = 4 + (2 + (2 + 0)) from rfl,
      readU16le_peel4, readU16le_peel2, readU16le_peel2, readU16le_u16le]

theorem drop_peel4 (w : Nat) (b : Bytes) (k : Nat) :
    (u32le w ++ b).drop (4 + k) = b.drop k := by
  rw [show (4 : Nat) + k = (u32le w).length + k by simp [u32le], List.drop_append]

theorem drop_peel2 (v : Nat) (b : Bytes) (k : Nat) :
    (u16le v ++ b).drop (2 + k) = b.drop k := by
  rw [show (2 : Nat) + k = (u16le v).length + k by simp [u16le], List.drop_append]

/-- The name bytes of a local header in place (offset 30). -/
theorem localName_read (nm : String) (d : Bytes) (rest : Bytes) :
    ((localHeader nm d ++ rest).drop 30).take (utf8Bytes nm).length =
      utf8Bytes nm := by
  rw [localHeader_assoc,
      show (30 : Nat) = 4 + (2 + (2 + (2 + (2 + (2 + (4 + (4 + (4 + (2 + (2 + 0))))))))))
        from rfl,
      drop_peel4, drop_peel2, drop_peel2, drop_peel2, drop_peel2, drop_peel2,
      drop_peel4, drop_peel4, drop_peel4, drop_peel2, drop_peel2, List.drop_zero,
      List.take_left]

/-- The data bytes of a local header in place (offset 30 + name length). -/
theorem localData_read (nm : String) (d : Bytes) (rest : Bytes) :
    ((localHeader nm d ++ rest).drop (30 + (utf8Bytes nm).length)).take d.length =
      d := by
  rw [localHeader_assoc,
      show (30 : Nat) + (utf8Bytes nm).length =
          4 + (2 + (2 + (2 + (2 + (2 + (4 + (4 + (4 + (2 + (2 +
            ((utf8Bytes nm).length + 0))))))))))) by omega,
      drop_peel4, drop_peel2, drop_peel2, drop_peel2, drop_peel2, drop_peel2,
      drop_peel4, drop_peel4, drop_peel4, drop_peel2, drop_peel2, List.drop_append,
      List.drop_zero, List.take_left]

/-- The method field (offset 10) of a central header in place: stored. -/
theorem centralMethod_read (nm : String) (d : Bytes) (off : Nat) (rest : Bytes) :
    readU16le (centralHeader nm d off ++ rest) 10 = some 0 := by
  rw [centralHeader_assoc,
      show (10 : Nat) = 4 + (2 + (2 + (2 + 0))) from rfl,
      readU16le_peel4, readU16le_peel2, readU16le_peel2, readU16le_peel2,
      readU16le_u16le]

/-- The offset field (offset 42) of a central header in place. -/
theorem centralOffset_read (nm : String) (d : Bytes) (off : Nat) (rest : Bytes) :
    readU32le (centralHeader nm d off ++ rest) 42 = some (off % 4294967296) := by
  rw [centralHeader_assoc,
      show (42 : Nat) = 4 + (2 + (2 + (2 + (2 + (2 + (2 + (4 + (4 + (4 + (2 +
        (2 + (2 + (2 + (2 + (4 + 0))))))))))))))) from rfl,
      readU32le_peel4, readU32le_peel2, readU32le_peel2, readU32le_peel2,
      readU32le_peel2, readU32le_peel2, readU32le_peel2, readU32le_peel4,
      readU32le_peel4, readU32le_peel4, readU32le_peel2, readU32le_peel2,
      readU32le_peel2, readU32le_peel2, readU32le_peel2, readU32le_peel4,
      readU32le_u32le]

/-- The two entry-count fields of the EOCD record in place. -/
theorem eocdCounts_read (n csize coffset : Nat) (rest : Bytes) :
    readU16le (eocdRecord n csize coffset ++ rest) 8 = some (n % 65536) ∧
    readU16le (eocdRecord n csize coffset ++ rest) 10 = some (n % 65536) := by
  constructor
  · rw [eocd_assoc, show (8 : Nat) = 4 + (2 + (2 + 0)) from rfl,
        readU16le_peel4, readU16le_peel2, readU16le_peel2, readU16le_u16le]
  · rw [eocd_assoc, show (10 : Nat) = 4 + (2 + (2 + (2 + 0))) from rfl,
        readU16le_peel4, readU16le_peel2, readU16le_peel2, readU16le_peel2,
        readU16le_u16le]

theorem getD_drop (l : Bytes) (p k : Nat) :
    (l.drop p).getD k 0 = l.getD (p + k) 0 := by
  induction p generalizing l with
  | zero => simp
  | succ q ih =>
    cases l with
    | nil => simp
    | cons x xs =>
      rw [List.drop_succ_cons, ih xs, show q + 1 + k = (q + k) + 1 by omega,
          List.getD_cons_succ]

theorem readU32le_drop_eq (l : Bytes) (p k : Nat) :
    readU32le l (p + k) = readU32le (l.drop p) k := by
  unfold readU32le
  rw [List.length_drop]
  simp only [getD_drop, Nat.add_assoc]
  split_ifs <;> first | rfl | omega

theorem readU16le_drop_eq (l : Bytes) (p k : Nat) :
    readU16le l (p + k) = readU16le (l.drop p) k := by
  unfold readU16le
  rw [List.length_drop]
  simp only [getD_drop, Nat.add_assoc]
  split_ifs <;> first | rfl | omega

theorem centralsJoin_offset_read :
    ∀ (entries : List (String × Bytes)) (base : Nat) (rest : Bytes) (i : Nat),
      i < entries.length →
    readU32le (centralsJoin base entries ++ rest) (centralPos entries i + 42) =
      some ((base + localPos entries i) % 4294967296) := by
  intro entries
  induction entries with
  | nil => intro base rest i hi; simp at hi
  | cons e es ih =>
    intro base rest i hi
    cases i with
    | zero =>
      simp only [centralPos, localPos, Nat.zero_add, Nat.add_zero]
      show readU32le (centralHeader e.1 e.2 base ++ _ ++ rest) 42 = _
      rw [List.append_assoc, centralOffset_read]
    | succ j =>
      have hj : j < es.length := by simpa using hi
      simp only [centralPos, localPos]
      show readU32le (centralHeader e.1 e.2 base ++ _ ++ rest)
        (46 + (utf8Bytes e.1).length + centralPos es j + 42) = _
      rw [List.append_assoc,
          show 46 + (utf8Bytes e.1).length + centralPos es j + 42 =
            (centralHeader e.1 e.2 base).length + (centralPos es j + 42) by
            rw [centralHeader_length]; omega,
          readU32le_shift, ih (base + (localHeader e.1 e.2).length) rest j hj,
          Nat.add_assoc]

theorem centralsJoin_method_read :
    ∀ (entries : List (String × Bytes)) (base : Nat) (rest : Bytes) (i : Nat),
      i < entries.length →
    readU16le (centralsJoin base entries ++ rest) (centralPos entries i + 10) =
      some 0 := by
  intro entries
  induction entries with
  | nil => intro base rest i hi; simp at hi
  | cons e es ih =>
    intro base rest i hi
    cases i with
    | zero =>
      simp only [centralPos, Nat.zero_add]
      show readU16le (centralHeader e.1 e.2 base ++ _ ++ rest) 10 = _
      rw [List.append_assoc, centralMethod_read]
    | succ j =>
      have hj : j < es.length := by simpa using hi
      simp only [centralPos]
      show readU16le (centralHeader e.1 e.2 base ++ _ ++ rest)
        (46 + (utf8Bytes e.1).length + centralPos es j + 10) = _
      rw [List.append_assoc,
          show 46 + (utf8Bytes e.1).length + centralPos es j + 10 =
            (centralHeader e.1 e.2 base).length + (centralPos es j + 10) by
            rw [centralHeader_length]; omega,
          readU16le_shift]
      exact ih (base + (localHeader e.1 e.2).length) rest j hj

/-- Entry i's complete local file header sits at offset localPos i. -/
theorem zip_localHeader_at (entries : List (String × Bytes)) (i : Nat)
    (hi : i < entries.length) :
    ((zipBytes entries).drop (localPos entries i)).take
        (localHeader (entries.get ⟨i, hi⟩).1 (entries.get ⟨i, hi⟩).2).length =
      localHeader (entries.get ⟨i, hi⟩).1 (entries.get ⟨i, hi⟩).2 := by
  rw [zipBytes_eq, localsJoin_at entries _ i hi, List.take_left]

theorem zip_localSig (entries : List (String × Bytes)) (i : Nat)
    (hi : i < entries.length) :
    readU32le (zipBytes entries) (localPos entries i) = some 0x04034B50 := by
  rw [show localPos entries i = localPos entries i + 0 by omega,
      readU32le_drop_eq, zipBytes_eq, localsJoin_at entries _ i hi, localSig_read]

theorem zip_localMethod (entries : List (String × Bytes)) (i : Nat)
    (hi : i < entries.length) :
    readU16le (zipBytes entries) (localPos entries i + 8) = some 0 := by
  rw [readU16le_drop_eq, zipBytes_eq, localsJoin_at entries _ i hi,
      localMethod_read]

theorem zip_centralOffset (entries : List (String × Bytes)) (i : Nat)
    (hi : i < entries.length) :
    readU32le (zipBytes entries)
        ((localsJoin entries).length + centralPos entries i + 42) =
      some (localPos entries i % 4294967296) := by
  rw [zipBytes_eq,
      show (localsJoin entries).length + centralPos entries i + 42 =
        (localsJoin entries).length + (centralPos entries i + 42) by omega,
      readU32le_shift]
  have h := centralsJoin_offset_read entries 0 (eocdRecord entries.length
    (centralsJoin 0 entries).length (localsJoin entries).length) i hi
  rw [Nat.zero_add] at h
  exact h

theorem zip_centralMethod (entries : List (String × Bytes)) (i : Nat)
    (hi : i < entries.length) :
    readU16le (zipBytes entries)
        ((localsJoin entries).length + centralPos entries i + 10) = some 0 := by
  rw [zipBytes_eq,
      show (localsJoin entries).length + centralPos entries i + 10 =
        (localsJoin entries).length + (centralPos entries i + 10) by omega,
      readU16le_shift]
  exact centralsJoin_method_read entries 0 _ i hi

theorem centralsJoin_length_shift :
    ∀ (entries : List (String × Bytes)) (base base2 : Nat),
      (centralsJoin base entries).length = (centralsJoin base2 entries).length := by
  intro entries
  induction entries with
  | nil => intro base base2; rfl
  | cons e es ih =>
    intro base base2
    simp only [centralsJoin, List.length_append]
    rw [centralHeader_length, centralHeader_length,
        ih (base + (localHeader e.1 e.2).length) (base2 + (localHeader e.1 e.2).length)]

theorem zip_eocdCounts (entries : List (String × Bytes)) :
    readU16le (zipBytes entries)
        ((localsJoin entries).length + (centralsJoin 0 entries).length + 8) =
      some (entries.length % 65536) ∧
    readU16le (zipBytes entries)
        ((localsJoin entries).length + (centralsJoin 0 entries).length + 10) =
      some (entries.length % 65536) := by
  have hsplit : ∀ k : Nat,
      readU16le (zipBytes entries)
        ((localsJoin entries).length + (centralsJoin 0 entries).length + k) =
      readU16le (eocdRecord entries.length (centralsJoin 0 entries).length
        (localsJoin entries).length ++ []) k := by
    intro k
    rw [zipBytes_eq,
        show (localsJoin entries).length + (centralsJoin 0 entries).length + k =
          (localsJoin entries).length + ((centralsJoin 0 entries).length + k) by omega,
        readU16le_shift, readU16le_shift, List.append_nil]
  rw [hsplit, hsplit]
  exact eocdCounts_read _ _ _ []

/-! ### C6: ZIP packager invariants -/

/-- C6: local file headers appear in the caller order (entry i's complete
local header sits at byte offset localPos i); the offset recorded in
entry i's central directory header equals the absolute offset of its
local header (whenever that offset fits in u32, matching the as-u32 cast);
and both entry-count fields of the end-of-central-directory record equal
the number of entries (whenever it fits in u16). -/
theorem zip_packager_invariants (entries : List (String × Bytes)) :
    (∀ i (hi : i < entries.length),
      ((zipBytes entries).drop (localPos entries i)).take
          (localHeader (entries.get ⟨i, hi⟩).1 (entries.get ⟨i, hi⟩).2).length =
        localHeader (entries.get ⟨i, hi⟩).1 (entries.get ⟨i, hi⟩).2) ∧
    (∀ i, i < entries.length → localPos entries i < 4294967296 →
      readU32le (zipBytes entries)
          ((localsJoin entries).length + centralPos entries i + 42) =
        some (localPos entries i)) ∧
    (entries.length < 65536 →
      readU16le (zipBytes entries)
          ((localsJoin entries).length + (centralsJoin 0 entries).length + 8) =
        some entries.length ∧
      readU16le (zipBytes entries)
          ((localsJoin entries).length + (centralsJoin 0 entries).length + 10) =
        some entries.length) := by
  refine ⟨zip_localHeader_at entries, ?_, ?_⟩
  · intro i hi hlt
    rw [zip_centralOffset entries i hi, Nat.mod_eq_of_lt hlt]
  · intro hN
    have h := zip_eocdCounts entries
    rw [Nat.mod_eq_of_lt hN] at h
    exact h

/-- C6 witness: the invariants applied to the two-entry input of the spec
scenario (mimetype plus a 5-byte text file). -/
theorem zip_packager_invariants_witness :
    ((zipBytes demoEntries).drop (localPos demoEntries 1)).take
        (localHeader "a.txt" (utf8Bytes "hello")).length =
      localHeader "a.txt" (utf8Bytes "hello") ∧
    readU32le (zipBytes demoEntries)
        ((localsJoin demoEntries).length + centralPos demoEntries 1 + 42) =
      some (localPos demoEntries 1) ∧
    readU16le (zipBytes demoEntries)
        ((localsJoin demoEntries).length + (centralsJoin 0 demoEntries).length + 8) =
      some 2 :=
  ⟨(zip_packager_invariants demoEntries).1 1 (by decide),
   (zip_packager_invariants demoEntries).2.1 1 (by decide) (by decide),
   ((zip_packager_invariants demoEntries).2.2 (by decide)).1⟩

/-! ### C5: ODT package layout -/

/-- C5: the generated archive holds exactly the six entries mimetype,
META-INF/manifest.xml, content.xml, styles.xml, settings.xml, meta.xml in
that order (names in order, entry count 6 in both EOCD count fields, a
local-header signature at each of the six local offsets); every entry is
stored (method 0 in each local and central header); and the first entry
starts at offset 0 with name mimetype and payload exactly the literal
bytes application/vnd.oasis.opendocument.text. -/
theorem odt_package_contract (doc : Document) :
    ((odtEntries doc).map Prod.fst =
      ["mimetype", "META-INF/manifest.xml", "content.xml", "styles.xml",
       "settings.xml", "meta.xml"]) ∧
    (odtEntries doc).length = 6 ∧
    generateOdt doc = .ok (generateOdtBytes doc) ∧
    (readU16le (generateOdtBytes doc)
        ((localsJoin (odtEntries doc)).length +
          (centralsJoin 0 (odtEntries doc)).length + 8) = some 6 ∧
     readU16le (generateOdtBytes doc)
        ((localsJoin (odtEntries doc)).length +
          (centralsJoin 0 (odtEntries doc)).length + 10) = some 6) ∧
    (∀ i, i < 6 →
      readU32le (generateOdtBytes doc) (localPos (odtEntries doc) i) =
        some 0x04034B50 ∧
      readU16le (generateOdtBytes doc) (localPos (odtEntries doc) i + 8) =
        some 0 ∧
      readU16le (generateOdtBytes doc)
          ((localsJoin (odtEntries doc)).length +
            centralPos (odtEntries doc) i + 10) = some 0) ∧
    localPos (odtEntries doc) 0 = 0 ∧
    ((generateOdtBytes doc).drop 30).take 8 = utf8Bytes "mimetype" ∧
    ((generateOdtBytes doc).drop 38).take 39 = utf8Bytes mimeLit := by
  have hX : generateOdtBytes doc =
      localHeader "mimetype" (utf8Bytes mimeLit) ++
        (localsJoin ((odtEntries doc).drop 1) ++
          (centralsJoin 0 (odtEntries doc) ++
            eocdRecord (odtEntries doc).length
              (centralsJoin 0 (odtEntries doc)).length
              (localsJoin (odtEntries doc)).length)) := by
    show zipBytes (odtEntries doc) = _
    rw [zipBytes_eq]
    exact localsJoin_at (odtEntries doc) _ 0 (by simp [odtEntries])
  refine ⟨rfl, rfl, rfl, ?_, ?_, rfl, ?_, ?_⟩
  · exact zip_eocdCounts (odtEntries doc)
  · intro i hi
    have hi6 : i < (odtEntries doc).length := hi
    exact ⟨zip_localSig _ i hi6, zip_localMethod _ i hi6, zip_centralMethod _ i hi6⟩
  · rw [hX]
    have h := localName_read "mimetype" (utf8Bytes mimeLit)
    simp only [show (utf8Bytes "mimetype").length = 8 from by decide] at h
    exact h _
  · rw [hX]
    have h := localData_read "mimetype" (utf8Bytes mimeLit)
    simp only [show (30 : Nat) + (utf8Bytes "mimetype").length = 38 from by decide,
               show (utf8Bytes mimeLit).length = 39 from by decide] at h
    exact h _

/-- C5 witness: the layout facts applied at the empty document and entry 0. -/
theorem odt_package_contract_witness :
    readU16le (generateOdtBytes Document.new)
        ((localsJoin (odtEntries Document.new)).length +
          (centralsJoin 0 (odtEntries Document.new)).length + 8) = some 6 ∧
    readU32le (generateOdtBytes Document.new)
        (localPos (odtEntries Document.new) 0) = some 0x04034B50 :=
  ⟨(odt_package_contract Document.new).2.2.2.1.1,
   ((odt_package_contract Document.new).2.2.2.2.1 0 (by decide)).1⟩

/-! ### C4: XML escaping -/

theorem strdata_append (a b : String) : (a ++ b).data = a.data ++ b.data := rfl

/-- C4 as stated is wrong about attribute values: on a document whose
font name is A"B the generated content.xml and styles.xml carry the raw
double quote inside the svg:font-family attribute and contain no &quot;
anywhere; the only escaping function leaves quote and apostrophe alone. -/
theorem font_attribute_not_escaped :
    strSub "svg:font-family=\"\x27A\"B\x27\"" (generateContentXml c4doc) = true ∧
    strSub "&quot;" (generateContentXml c4doc) = false ∧
    strSub "svg:font-family=\"\x27A\"B\x27\"" (generateStylesXml c4doc) = true ∧
    strSub "&quot;" (generateStylesXml c4doc) = false ∧
    escapeXmlForContent "\x22\x27" = "\x22\x27" := by
  refine ⟨by decide, by decide, by decide, by decide, by decide⟩

theorem fontFaceFrags_verbatim :
    ∀ (fonts : List String) (k i : Nat) (hi : i < fonts.length),
    ∃ a b : List Char, (fontFaceFrags k fonts).data =
      a ++ (fonts.get ⟨i, hi⟩).data ++ b := by
  intro fonts
  induction fonts with
  | nil => intro k i hi; simp at hi
  | cons f fs ih =>
    intro k i hi
    cases i with
    | zero =>
      refine ⟨("\n    <style:font-face style:name=\"F").data ++ (toString k).data ++
        ("\" svg:font-family=\"\x27").data,
        ("\x27\"\n      style:font-family-generic=\"swiss\" style:font-pitch=\"variable\"/>").data ++
          (fontFaceFrags (k + 1) fs).data, ?_⟩
      simp [fontFaceFrags, fontFaceFrag, strdata_append, List.append_assoc]
    | succ j =>
      have hj : j < fs.length := by simpa using hi
      obtain ⟨a, b, hab⟩ := ih (k + 1) j hj
      refine ⟨(fontFaceFrag k f).data ++ a, b, ?_⟩
      simp only [fontFaceFrags, strdata_append, hab, List.append_assoc, List.get]

/-- C4 amended: escape_xml_for_content is applied to text content and
replaces exactly ampersand, less-than and greater-than (no raw < or >
survives, and clean text passes through unchanged), while font names are
interpolated into the svg:font-family attributes of content.xml verbatim,
with none of the five characters escaped. -/
theorem xml_escaping_contract :
    (∀ s : String, Char.ofNat 60 ∉ (escapeXmlForContent s).data ∧
      Char.ofNat 62 ∉ (escapeXmlForContent s).data) ∧
    (∀ s : String, (∀ c ∈ s.data, c ≠ '&' ∧ c ≠ '<' ∧ c ≠ '>') →
      escapeXmlForContent s = s) ∧
    (∀ (doc : Document) (i : Nat) (hi : i < doc.fonts.length),
      ∃ a b : List Char, (generateContentXml doc).data =
        a ++ (doc.fonts.get ⟨i, hi⟩).data ++ b) ∧
    (∀ tr : TextRun, genInline (.text tr) =
      "\n        <text:span text:style-name=\"T" ++ toString tr.charShapeId ++
        "\">" ++ escapeXmlForContent tr.text ++ "</text:span>") := by
  refine ⟨?_, ?_, ?_, fun tr => rfl⟩
  · intro s
    have key : ∀ (x c : Char), x = Char.ofNat 60 ∨ x = Char.ofNat 62 →
        x ∈ (if c = '&' then "&amp;".data
             else if c = '<' then "&lt;".data
             else if c = '>' then "&gt;".data else [c]) → False := by
      intro x c hx hmem
      split_ifs at hmem with h1 h2 h3
      · rcases hx with rfl | rfl <;> simp at hmem <;> cases hmem
      · rcases hx with rfl | rfl <;> simp at hmem <;> cases hmem
      · rcases hx with rfl | rfl <;> simp at hmem <;> cases hmem
      · simp only [List.mem_singleton] at hmem
        subst hmem
        rcases hx with rfl | rfl
        · exact h2 rfl
        · exact h3 rfl
    constructor <;>
      · intro hmem
        rw [show (escapeXmlForContent s).data =
            (s.data.map fun c =>
              if c = '&' then "&amp;".data
              else if c = '<' then "&lt;".data
              else if c = '>' then "&gt;".data else [c]).flatten from rfl,
          List.mem_flatten] at hmem
        obtain ⟨l, hl, hx⟩ := hmem
        rw [List.mem_map] at hl
        obtain ⟨c, -, rfl⟩ := hl
        first
          | exact key _ c (Or.inl rfl) hx
          | exact key _ c (Or.inr rfl) hx
  · intro s hclean
    cases s with
    | mk cs =>
      show String.mk _ = String.mk cs
      congr 1
      induction cs with
      | nil => rfl
      | cons c cs2 ih =>
        obtain ⟨h1, h2, h3⟩ := hclean c (by simp)
        simp only [List.map_cons, List.flatten_cons, if_neg h1, if_neg h2, if_neg h3,
          List.singleton_append, List.cons.injEq, true_and]
        exact ih (fun x hx => hclean x (by simp [hx]))
  · intro doc i hi
    obtain ⟨a, b, hab⟩ := fontFaceFrags_verbatim doc.fonts 0 i hi
    unfold generateContentXml
    refine ⟨("<?xml version=\"1.0\" encoding=\"UTF-8\"?>\n<office:document-content\n  xmlns:office=\"urn:oasis:names:tc:opendocument:xmlns:office:1.0\"\n  xmlns:text=\"urn:oasis:names:tc:opendocument:xmlns:text:1.0\"\n  xmlns:table=\"urn:oasis:names:tc:opendocument:xmlns:table:1.0\"\n  xmlns:draw=\"urn:oasis:names:tc:opendocument:xmlns:drawing:1.0\"\n  xmlns:xlink=\"http://www.w3.org/1999/xlink\"\n  office:version=\"1.2\">\n  <office:scripts/>\n  <office:font-face-decls>").data ++ a,
      b ++ ("\n  </office:font-face-decls>\n  <office:automatic-styles/>\n  <office:body>\n    <office:text>").data ++
        (genSectionBlocks doc.sections).data ++
        ("\n    </office:text>\n  </office:body>\n</office:document-content>").data, ?_⟩
    simp only [strdata_append, hab, List.append_assoc]

/-- C4 amended witness: the verbatim-font fact applied to the quoted font
of c4doc, and the clean-text identity applied to a concrete string. -/
theorem xml_escaping_contract_witness :
    (∃ a b : List Char, (generateContentXml c4doc).data =
      a ++ ("A\"B" : String).data ++ b) ∧
    escapeXmlForContent "hello world" = "hello world" :=
  ⟨xml_escaping_contract.2.2.1 c4doc 0 (by decide),
   xml_escaping_contract.2.1 "hello world" (by decide)⟩

end Hancon
